import Mathlib

set_option maxRecDepth 10000

/-!
Verification development for the agent-orchestration core:
tool registry/executor, conversation transcript reconstruction,
the bounded tool-calling loop, and the LLM retry wrapper.
Each module below is a shallow embedding of the corresponding
TypeScript source file.
-/

namespace Spec2Proof

/-! ## Common data

Message roles, argument maps, and small string helpers shared by the
modules.  Tool arguments are serialized key/value maps in the source
(`Record<string, unknown>`); values are modelled as opaque strings. -/

inductive Role where
  | user
  | assistant
  | system
  | tool
deriving DecidableEq, Repr

/-- Argument map of a tool call: JS object keys with opaque values. -/
def Args := List (String × String)
deriving DecidableEq, Repr

instance : Membership (String × String) Args := inferInstanceAs (Membership _ (List _))

/-- JS `param in args`: key presence in the argument object. -/
def hasKey (args : Args) (param : String) : Bool :=
  (List.map Prod.fst args).contains param

/-- JS substring test over char lists: does the first list start with the second. -/
def startsWithL : List Char → List Char → Bool
  | _, [] => true
  | [], _ :: _ => false
  | a :: as, b :: bs => a == b && startsWithL as bs

/-- JS `String.prototype.includes`: some suffix of `s` starts with `pat`. -/
def containsL : List Char → List Char → Bool
  | [], pat => pat.isEmpty
  | s@(_ :: t), pat => startsWithL s pat || containsL t pat

/-- `s.includes(pat)` from the source, on Lean strings. -/
def strIncludes (s pat : String) : Bool :=
  containsL s.toList pat.toList

/-- JS `s.trim().startsWith(c)`: the first non-whitespace character of
`s` is `c` (trailing trim cannot affect `startsWith`). -/
def trimStartsWith (s : String) (c : Char) : Bool :=
  match s.toList.dropWhile (fun ch => ch.isWhitespace) with
  | [] => false
  | ch :: _ => ch == c

/-- JS `s.substring(0, n)`. -/
def strTake (s : String) (n : Nat) : String :=
  String.mk (s.toList.take n)

/-- Decimal digit character. -/
def natDigitChar (n : Nat) : Char :=
  Char.ofNat (48 + n % 10)

/-- Decimal rendering of a natural number (fuel-based so that it
reduces inside the kernel; the fuel `n + 1` always suffices). -/
def natToStrGo : Nat → Nat → List Char → List Char
  | 0, _, acc => acc
  | fuel + 1, n, acc =>
    if n < 10 then natDigitChar n :: acc
    else natToStrGo fuel (n / 10) (natDigitChar n :: acc)

/-- JS number-to-string interpolation for HTTP status codes. -/
def natToStr (n : Nat) : String :=
  String.mk (natToStrGo (n + 1) n [])

/-! ## Tool Registry & Executor (tool-executor.ts)

`ToolExecutor` holds a name-keyed map of tool definitions, validates
required parameters, runs the handler, and writes one audit record per
attempt.  The database handle is elided; the audit insert outcome is a
boolean parameter (`auditOk`), and `logAction` swallows a failed insert
exactly as the source `try/catch` does.  Handlers are modelled as pure
functions returning `Except` (a thrown JS error becomes `.error msg`).
Wall-clock durations (`Date.now()` deltas) are abstracted to `0`, and
the `uuidv4()` action id is a parameter. -/

structure ToolExecutionContext where
  userId : Nat
  projectId : Option Nat
  conversationId : Option String
deriving DecidableEq, Repr

structure ToolParameters where
  required : List String
deriving Repr

structure ToolDefinition where
  name : String
  description : String
  parameters : ToolParameters
  handler : Args → ToolExecutionContext → Except String (Option String)

structure ToolExecutionResult where
  success : Bool
  result : Option String
  error : Option String
  executionTimeMs : Nat
deriving DecidableEq, Repr

/-- One row of the `agent_actions` audit table (`InsertAgentAction`). -/
structure InsertAgentAction where
  id : String
  conversationId : Option String
  userId : Nat
  projectId : Option Nat
  actionType : String
  actionName : String
  input : Args
  output : Option String
  success : Nat
  errorMessage : Option String
  executionTimeMs : Nat
deriving DecidableEq, Repr

/-- `getActionType`: derive the action bucket from the tool name. -/
def getActionType (toolName : String) : String :=
  if strIncludes toolName "query" || strIncludes toolName "search" || strIncludes toolName "get" then
    "query"
  else if strIncludes toolName "generate" || strIncludes toolName "create" then
    "generate"
  else if strIncludes toolName "update" || strIncludes toolName "modify" || strIncludes toolName "edit" then
    "modify"
  else if strIncludes toolName "analyze" || strIncludes toolName "validate" then
    "analyze"
  else
    "other"

/-- `logAction`: attempt the audit insert; a failed insert is swallowed
(the error goes to a side channel, reported here as the second
component) and never propagates to the caller. -/
def logAction (auditOk : Bool) (action : InsertAgentAction) :
    List InsertAgentAction × Option String :=
  if auditOk then ([action], none)
  else ([], some "Failed to log agent action")

/-- Registry: JS `Map` from tool name to definition, last registration wins. -/
def Registry := String → Option ToolDefinition

def emptyRegistry : Registry := fun _ => none

def registerTool (reg : Registry) (tool : ToolDefinition) : Registry :=
  fun n => if n = tool.name then some tool else reg n

def registerTools (tools : List ToolDefinition) : Registry :=
  tools.foldl registerTool emptyRegistry

/-- Observable outcome of one `executeTool` call: the returned result,
the audit rows actually written, and (instrumentation) the argument
maps the handler was invoked with. -/
structure ExecOut where
  res : ToolExecutionResult
  audits : List InsertAgentAction
  handlerCalls : List Args

/-- Audit row for a failed attempt. -/
def failAudit (actionId : String) (ctx : ToolExecutionContext)
    (toolName : String) (args : Args) (errorMessage : String) : InsertAgentAction :=
  { id := actionId
    conversationId := ctx.conversationId
    userId := ctx.userId
    projectId := ctx.projectId
    actionType := getActionType toolName
    actionName := toolName
    input := args
    output := none
    success := 0
    errorMessage := some errorMessage
    executionTimeMs := 0 }

/-- Audit row for a successful attempt. -/
def successAudit (actionId : String) (ctx : ToolExecutionContext)
    (toolName : String) (args : Args) (output : Option String) : InsertAgentAction :=
  { id := actionId
    conversationId := ctx.conversationId
    userId := ctx.userId
    projectId := ctx.projectId
    actionType := getActionType toolName
    actionName := toolName
    input := args
    output := output
    success := 1
    errorMessage := none
    executionTimeMs := 0 }

/-- `ToolExecutor.executeTool`.  The source throws for an unknown tool
and for missing required parameters; both throws are caught by the
surrounding `try/catch`, which logs one failed audit row and returns
`success:false` with the message.  A handler throw takes the same
catch path.  On success one audit row with `success=1` is written. -/
def executeTool (reg : Registry) (auditOk : Bool) (actionId : String)
    (toolName : String) (args : Args) (ctx : ToolExecutionContext) : ExecOut :=
  match reg toolName with
  | none =>
    let msg := "Tool \"" ++ toolName ++ "\" not found"
    { res := { success := false, result := none, error := some msg, executionTimeMs := 0 }
      audits := (logAction auditOk (failAudit actionId ctx toolName args msg)).1
      handlerCalls := [] }
  | some tool =>
    let missing := tool.parameters.required.filter (fun p => !(hasKey args p))
    if missing.length > 0 then
      let msg := "Missing required parameters: " ++ String.intercalate ", " missing
      { res := { success := false, result := none, error := some msg, executionTimeMs := 0 }
        audits := (logAction auditOk (failAudit actionId ctx toolName args msg)).1
        handlerCalls := [] }
    else
      match tool.handler args ctx with
      | .ok v =>
        { res := { success := true, result := v, error := none, executionTimeMs := 0 }
          audits := (logAction auditOk (successAudit actionId ctx toolName args v)).1
          handlerCalls := [args] }
      | .error m =>
        { res := { success := false, result := none, error := some m, executionTimeMs := 0 }
          audits := (logAction auditOk (failAudit actionId ctx toolName args m)).1
          handlerCalls := [args] }

/-- One entry of the `toolCalls` argument to `executeTools`. -/
structure BatchCall where
  name : String
  arguments : Args
deriving Repr

/-- `ToolExecutor.executeTools`: run the calls strictly in list order,
push every obtained result, and stop after the first `success:false`
result.  Returns the per-call outcomes (the source returns the `res`
projections; see `executeToolsResults`).  `uuidGen` supplies the
per-call `uuidv4()` action ids. -/
def executeTools (reg : Registry) (auditOk : Bool) (uuidGen : Nat → String)
    (ctx : ToolExecutionContext) : List BatchCall → Nat → List ExecOut
  | [], _ => []
  | call :: rest, k =>
    let out := executeTool reg auditOk (uuidGen k) call.name call.arguments ctx
    if out.res.success then
      out :: executeTools reg auditOk uuidGen ctx rest (k + 1)
    else
      [out]

/-- The result list the source method returns. -/
def executeToolsResults (reg : Registry) (auditOk : Bool) (uuidGen : Nat → String)
    (ctx : ToolExecutionContext) (calls : List BatchCall) : List ToolExecutionResult :=
  (executeTools reg auditOk uuidGen ctx calls 0).map ExecOut.res

/-- Concrete scenario A registry entry: tool `lookup` requiring `{id}`. -/
def lookupTool : ToolDefinition :=
  { name := "lookup"
    description := "look up a record by id"
    parameters := { required := ["id"] }
    handler := fun _ _ => .ok (some "looked-up") }

/-- A tool whose handler always raises. -/
def failingTool : ToolDefinition :=
  { name := "boom"
    description := "always raises"
    parameters := { required := [] }
    handler := fun _ _ => .error "boom failed" }

/-- A concrete execution context. -/
def ctx0 : ToolExecutionContext :=
  { userId := 1, projectId := none, conversationId := none }

/-! ## LLM service (llm.ts)

Response types shared with the orchestrator, and the retry wrapper
around the HTTP call.  The JSON grammar is out of scope: a tool-call
`arguments` string is modelled by its parse outcome, and the response
body parser is a parameter.  The `InvokeResult` shape keeps the fields
the orchestrator reads (`choices[0].message`, `usage.total_tokens`,
`model`). -/

/-- Raw tool-call arguments string, modelled by its parse outcome. -/
inductive ArgPayload where
  | parsable (a : Args)
  | malformed (raw : String)
deriving DecidableEq, Repr

structure LLMToolCall where
  id : String
  name : String
  arguments : ArgPayload
deriving DecidableEq, Repr

structure ChoiceMessage where
  content : String
  tool_calls : List LLMToolCall
deriving DecidableEq, Repr

structure Choice where
  message : Option ChoiceMessage
deriving DecidableEq, Repr

structure InvokeResult where
  model : String
  choices : List Choice
  usage : Option Nat
deriving DecidableEq, Repr

/-- Outcome of one `fetch` attempt inside `invokeLLM`: a rejected
promise (connection reset, timeout — message text), a non-ok HTTP
response (status, status text, error body), or an ok response body. -/
inductive FetchOutcome where
  | netErr (msg : String)
  | httpErr (status : Nat) (statusText : String) (body : String)
  | success (body : String)
deriving Repr

def MAX_RETRIES : Nat := 3

def RETRY_DELAY_MS : Nat := 1000

/-- Body of the `try` block of one attempt: non-ok HTTP statuses,
HTML-looking bodies and unparseable bodies are converted to thrown
errors with the exact source message texts. -/
def tryBody (parse : String → Option InvokeResult) : FetchOutcome → Except String InvokeResult
  | .netErr m => .error m
  | .httpErr status statusText body =>
    .error ("LLM invoke failed: " ++ natToStr status ++ " " ++ statusText ++ " – " ++ body)
  | .success text =>
    if trimStartsWith text '<' then
      .error ("LLM returned HTML instead of JSON (possible gateway error). Response starts with: "
        ++ strTake text 100)
    else
      match parse text with
      | some r => .ok r
      | none => .error ("Failed to parse LLM response as JSON: " ++ strTake text 200)

/-- The transient-error classifier (`isRetryable` in the source):
purely text-based on the error message. -/
def isRetryable (msg : String) : Bool :=
  strIncludes msg "HTML instead of JSON" ||
  strIncludes msg "Failed to parse" ||
  strIncludes msg "502" ||
  strIncludes msg "503" ||
  strIncludes msg "504" ||
  strIncludes msg "ECONNRESET" ||
  strIncludes msg "ETIMEDOUT"

deriving instance DecidableEq for Except

/-- Observable outcome of `invokeLLM`: the backoff delays slept (in
order), the number of attempts made, and the returned value or the
thrown error. -/
structure InvokeOutcome where
  delays : List Nat
  attempts : Nat
  outcome : Except String InvokeResult
deriving DecidableEq, Repr

/-- The retry for-loop of `invokeLLM` (`attempt` runs from 1 to
`MAX_RETRIES`; the fuel argument is `MAX_RETRIES - attempt + 1`).  A
retryable failure before the last attempt sleeps `RETRY_DELAY_MS *
attempt` and retries; anything else is thrown immediately.  The
fuel-0 branch is the statement after the loop, unreachable from the
entry point. -/
def invokeGo (fetchO : Nat → FetchOutcome) (parse : String → Option InvokeResult) :
    Nat → Nat → List Nat → InvokeOutcome
  | 0, attempt, delays =>
    { delays := delays, attempts := attempt - 1,
      outcome := .error "LLM invocation failed after all retries" }
  | fuel + 1, attempt, delays =>
    match tryBody parse (fetchO attempt) with
    | .ok r => { delays := delays, attempts := attempt, outcome := .ok r }
    | .error m =>
      if isRetryable m ∧ attempt < MAX_RETRIES then
        invokeGo fetchO parse fuel (attempt + 1) (delays ++ [RETRY_DELAY_MS * attempt])
      else
        { delays := delays, attempts := attempt, outcome := .error m }

/-- `invokeLLM`, abstracted over the per-attempt fetch outcome and the
JSON parser. -/
def invokeLLM (fetchO : Nat → FetchOutcome) (parse : String → Option InvokeResult) :
    InvokeOutcome :=
  invokeGo fetchO parse MAX_RETRIES 1 []

/-- A concrete structurally valid model response. -/
def r0 : InvokeResult :=
  { model := "gemini-2.5-flash"
    choices := [{ message := some { content := "hello", tool_calls := [] } }]
    usage := some 5 }

/-- Fetch oracle: 502 on the first attempt, then an ok body. -/
def fetch502 : Nat → FetchOutcome :=
  fun a => if a = 1 then .httpErr 502 "Bad Gateway" "upstream error" else .success "ok"

/-- Parser accepting exactly the body "ok". -/
def parseOk : String → Option InvokeResult :=
  fun s => if s = "ok" then some r0 else none

/-- Fetch oracle: every attempt is a connection reset. -/
def fetchReset : Nat → FetchOutcome :=
  fun _ => .netErr "socket hang up ECONNRESET"

/-- Fetch oracle: every attempt is a 401, a non-transient failure. -/
def fetchAuth : Nat → FetchOutcome :=
  fun _ => .httpErr 401 "Unauthorized" "bad key"

/-! ## Conversation Manager (conversation-manager.ts)

Message persistence and the reconstruction of a protocol-valid
history.  A `uuidv4()` id and the database `createdAt` default are
abstracted (`createdAt` only fixes the chronological order in which
`getRecentMessages` returns the rows, which is the input order here). -/

/-- One stored tool-call request on an assistant message (the
`toolCalls` JSON column entries; the optional `result` field is never
written by the orchestrator and is elided). -/
structure DbToolCall where
  id : String
  name : String
  arguments : Args
deriving DecidableEq, Repr

structure MessageMetadata where
  tokens : Option Nat
  model : Option String
  latency : Option Nat
  error : Option String
deriving DecidableEq, Repr

/-- `AddMessageParams` of `ConversationManager.addMessage`. -/
structure AddMessageParams where
  conversationId : String
  role : Role
  content : String
  toolCalls : Option (List DbToolCall)
  toolCallId : Option String
  metadata : Option MessageMetadata
deriving DecidableEq, Repr

/-- A row of `agent_messages` (`InsertAgentMessage`, also the row
shape read back by the queries). -/
structure InsertAgentMessage where
  id : String
  conversationId : String
  role : Role
  content : String
  toolCalls : Option (List DbToolCall)
  toolCallId : Option String
  metadata : Option MessageMetadata
deriving DecidableEq, Repr

/-- `ConversationManager.addMessage`: builds the row with `?? null`
fallbacks for the optional fields, inserts it, bumps the conversation
timestamp, and returns the row read back.  No field is validated or
transformed. -/
def addMessage (messageId : String) (params : AddMessageParams) : InsertAgentMessage :=
  { id := messageId
    conversationId := params.conversationId
    role := params.role
    content := params.content
    toolCalls := params.toolCalls
    toolCallId := params.toolCallId
    metadata := params.metadata }

/-- JS truthiness of a nullable string (`null`, `undefined` and the
empty string are falsy). -/
def struthy : Option String → Option String
  | some s => if s = "" then none else some s
  | none => none

/-- Boolean truthiness test of a nullable string. -/
def otruthy : Option String → Bool
  | some s => s != ""
  | none => false

/-- `msg.toolCalls` with the JS null behaving as the empty list in
every use below (`?.` chains and length tests). -/
def msgToolCalls (m : InsertAgentMessage) : List DbToolCall :=
  m.toolCalls.getD []

def roleIs (m : InsertAgentMessage) (r : Role) : Bool :=
  decide (m.role = r)

/-- `msg.role === 'assistant' && msg.toolCalls && msg.toolCalls.length > 0`. -/
def isToolCallAssistant (m : InsertAgentMessage) : Bool :=
  roleIs m Role.assistant && decide (0 < (msgToolCalls m).length)

/-- JS `Set` insertion (insertion order, no duplicates). -/
def insertIfAbsent (l : List String) (x : String) : List String :=
  if x ∈ l then l else l ++ [x]

/-- `new Set(xs)` as an insertion-ordered duplicate-free list. -/
def mkIdSet (xs : List String) : List String :=
  xs.foldl insertIfAbsent []

/-- The set of tool-call ids declared by an assistant message
(`new Set(msg.toolCalls.map(tc => tc.id))`). -/
def declaredIds (m : InsertAgentMessage) : List String :=
  mkIdSet ((msgToolCalls m).map DbToolCall.id)

/-- `msg.toolCallId || msg.toolCalls?.[0]?.id` followed by the
truthiness guard of the first validation pass. -/
def effToolCallId (m : InsertAgentMessage) : Option String :=
  match struthy m.toolCallId with
  | some s => some s
  | none => struthy (((msgToolCalls m).head?).map DbToolCall.id)

/-- A JS `Map<string, Set<string>>` (unique keys). -/
def SMap := String → Option (List String)

def smapEmpty : SMap := fun _ => none

/-- `map.set(k, v)`. -/
def smapSet (m : SMap) (k : String) (v : List String) : SMap :=
  fun q => if q = k then some v else m q

/-- `map.get(k)?.add(c)`: only modifies an existing entry. -/
def smapAdd (m : SMap) (k : String) (c : String) : SMap :=
  fun q => if q = k then (m k).map (fun v => insertIfAbsent v c) else m q

/-- State of the first validation pass of `buildLLMContext`:
`assistantToolCallMap`, `toolResponseMap`, `currentAssistantId`. -/
structure P1State where
  amap : SMap
  rmap : SMap
  cur : Option String

/-- One iteration of the first pass of `buildLLMContext`. -/
def pass1Step (s : P1State) (m : InsertAgentMessage) : P1State :=
  if isToolCallAssistant m then
    { amap := smapSet s.amap m.id (declaredIds m)
      rmap := smapSet s.rmap m.id []
      cur := some m.id }
  else if roleIs m Role.tool && otruthy s.cur then
    match s.cur, effToolCallId m with
    | some aid, some c => { s with rmap := smapAdd s.rmap aid c }
    | _, _ => s
  else if roleIs m Role.user || roleIs m Role.system ||
      (roleIs m Role.assistant && !(decide (0 < (msgToolCalls m).length))) then
    { s with cur := none }
  else s

def pass1Aux (s : P1State) (msgs : List InsertAgentMessage) : P1State :=
  msgs.foldl pass1Step s

/-- First pass of `buildLLMContext`: record, per assistant message
with tool calls, the declared ids and the observed response ids. -/
def pass1 (msgs : List InsertAgentMessage) : P1State :=
  pass1Aux { amap := smapEmpty, rmap := smapEmpty, cur := none } msgs

/-- `hasAllResponses` check of the second pass: both map entries
exist, the sets have equal size, and every expected id was answered. -/
def hasAllResponses (amap rmap : SMap) (mid : String) : Bool :=
  match amap mid, rmap mid with
  | some expected, some actual =>
    decide (expected.length = actual.length) && expected.all (fun i => actual.contains i)
  | _, _ => false

/-- Second pass of `buildLLMContext`: keep user/system messages,
assistant-with-tool-calls messages only when complete, tool messages
only when anchored to a kept assistant, and plain assistant messages
unless inside a skipped group. -/
def pass2 (amap rmap : SMap) : List InsertAgentMessage → Bool → Option String →
    List InsertAgentMessage
  | [], _, _ => []
  | m :: rest, skip, cur =>
    if roleIs m Role.user || roleIs m Role.system then
      m :: pass2 amap rmap rest false none
    else if isToolCallAssistant m then
      if hasAllResponses amap rmap m.id then
        m :: pass2 amap rmap rest false (some m.id)
      else
        pass2 amap rmap rest true none
    else if roleIs m Role.tool then
      if !skip && otruthy cur then
        m :: pass2 amap rmap rest skip cur
      else
        pass2 amap rmap rest skip cur
    else
      (if !skip then [m] else []) ++ pass2 amap rmap rest skip none

/-- The surviving rows of the two-pass validation. -/
def validatedMessages (msgs : List InsertAgentMessage) : List InsertAgentMessage :=
  pass2 (pass1 msgs).amap (pass1 msgs).rmap msgs false none

/-- One entry of the history handed to the model.  `tool_calls` is
empty when absent; the constant `type: "function"` tag and the
serialization of `arguments` back to a string are elided. -/
structure LLMHistoryMsg where
  role : Role
  content : Option String
  tool_calls : List DbToolCall
  tool_call_id : Option String
deriving DecidableEq, Repr

/-- Final mapping of `buildLLMContext`: protocol shaping of one
surviving row.  `content` is a non-null string in the row model, so
the `msg.content != null` guard is the identity. -/
def toLLMMessage (m : InsertAgentMessage) : LLMHistoryMsg :=
  let base : LLMHistoryMsg :=
    { role := m.role, content := some m.content, tool_calls := [], tool_call_id := none }
  let base :=
    if isToolCallAssistant m then
      { base with
        content := if m.content = "" then none else some m.content
        tool_calls := msgToolCalls m }
    else base
  if roleIs m Role.tool then
    { base with
      tool_call_id :=
        match struthy m.toolCallId with
        | some s => some s
        | none => ((msgToolCalls m).head?).map DbToolCall.id }
  else base

/-- `ConversationManager.buildLLMContext` on an already-fetched window
of rows in chronological order (the `getRecentMessages` read is
elided; its `limit` is the length of the given window). -/
def buildLLMContext (msgs : List InsertAgentMessage) : List LLMHistoryMsg :=
  (validatedMessages msgs).map toLLMMessage

/-- Concrete scenario C storage: assistant `m2` declares ids
`{a, b}` but only a tool response for `a` exists. -/
def scenarioMsgs : List InsertAgentMessage :=
  [ { id := "m1", conversationId := "c", role := Role.user, content := "question",
      toolCalls := none, toolCallId := none, metadata := none },
    { id := "m2", conversationId := "c", role := Role.assistant, content := "",
      toolCalls := some [⟨"a", "lookup", [("id", "1")]⟩, ⟨"b", "lookup", [("id", "2")]⟩],
      toolCallId := none, metadata := none },
    { id := "m3", conversationId := "c", role := Role.tool, content := "r1",
      toolCalls := none, toolCallId := some "a", metadata := none } ]

/-- One step of the response-id accumulation of the first pass over a
run of tool messages: add the effective (truthy) tool-call id. -/
def respStep (acc : List String) (m : InsertAgentMessage) : List String :=
  match effToolCallId m with
  | some c => insertIfAbsent acc c
  | none => acc

/-- Response ids collected from a run of tool messages, in order. -/
def respFold (acc : List String) (run : List InsertAgentMessage) : List String :=
  run.foldl respStep acc

/-- Invariant relating the two passes of `buildLLMContext`: whenever
`hasAllResponses` accepts an assistant-with-tool-calls message of the
window, each of its declared ids is answered by a tool message in the
run immediately following it. -/
def ToolGroupInv (amap rmap : SMap) (msgs : List InsertAgentMessage) : Prop :=
  ∀ (pre : List InsertAgentMessage) (a : InsertAgentMessage) (rest : List InsertAgentMessage),
    msgs = pre ++ a :: rest → isToolCallAssistant a = true →
    hasAllResponses amap rmap a.id = true →
    ∀ cid ∈ declaredIds a,
      ∃ t ∈ rest.takeWhile (fun q => roleIs q Role.tool), effToolCallId t = some cid

/-- A storage window with one complete tool-call group. -/
def completeGroupMsgs : List InsertAgentMessage :=
  [ { id := "m1", conversationId := "c", role := Role.user, content := "question",
      toolCalls := none, toolCallId := none, metadata := none },
    { id := "m2", conversationId := "c", role := Role.assistant, content := "",
      toolCalls := some [⟨"a", "lookup", [("id", "1")]⟩, ⟨"b", "lookup", [("id", "2")]⟩],
      toolCallId := none, metadata := none },
    { id := "m3", conversationId := "c", role := Role.tool, content := "r1",
      toolCalls := none, toolCallId := some "a", metadata := none },
    { id := "m4", conversationId := "c", role := Role.tool, content := "r2",
      toolCalls := none, toolCallId := some "b", metadata := none } ]

/-- Protocol shape of the user turn of the scenario windows. -/
def outUser : LLMHistoryMsg :=
  { role := Role.user, content := some "question", tool_calls := [], tool_call_id := none }

/-- Protocol shape of the complete assistant turn of `completeGroupMsgs`. -/
def outAsst : LLMHistoryMsg :=
  { role := Role.assistant, content := none,
    tool_calls := [⟨"a", "lookup", [("id", "1")]⟩, ⟨"b", "lookup", [("id", "2")]⟩],
    tool_call_id := none }

/-- Protocol shape of the first tool response of `completeGroupMsgs`. -/
def outTool1 : LLMHistoryMsg :=
  { role := Role.tool, content := some "r1", tool_calls := [], tool_call_id := some "a" }

/-- Protocol shape of the second tool response of `completeGroupMsgs`. -/
def outTool2 : LLMHistoryMsg :=
  { role := Role.tool, content := some "r2", tool_calls := [], tool_call_id := some "b" }

/-- Registry used by the batch-execution scenario. -/
def batchReg : Registry := registerTools [lookupTool, failingTool]

/-- A batch call that succeeds (required `id` supplied). -/
def callOk : BatchCall := { name := "lookup", arguments := [("id", "42")] }

/-- A batch call whose handler raises. -/
def callBad : BatchCall := { name := "boom", arguments := [] }

/-! ## Agent Orchestrator (agent-orchestrator.ts)

The multi-turn tool-calling loop of `processMessage`.  External
collaborators are parameters: the scripted model responses (one entry
per `invokeLLM` call, a thrown transport error being `.error`), and
the tool-executor result function.  Observable actions are recorded as
a trace of events.  Conversation creation, the context update, the
history read and the system prompt are elided: the initial in-memory
message list is a parameter.  Wall-clock latency metadata is
abstracted to `none`. -/

/-- One observable action of `processMessage`. -/
inductive Event where
  | llmCall (withTools : Bool)
  | append (params : AddMessageParams)
  | execTool (name : String) (args : Args)
deriving DecidableEq, Repr

/-- An entry of the in-memory `messages` array sent to the model. -/
structure ChatMsg where
  role : Role
  content : Option String
  tool_calls : List LLMToolCall
  tool_call_id : Option String
deriving DecidableEq, Repr

/-- One entry of the `toolCallResults` accumulator. -/
structure ToolCallResult where
  id : String
  name : String
  arguments : Args
  result : Option String
deriving DecidableEq, Repr

structure AgentResponse where
  conversationId : String
  message : String
  toolCalls : Option (List ToolCallResult)
  tokens : Nat
  model : String
  toolsUsed : List String
deriving DecidableEq, Repr

/-- Mutable state threaded through the rounds of the loop. -/
structure LoopState where
  script : List (Except String InvokeResult)
  messages : List ChatMsg
  responseContent : String
  totalTokens : Nat
  modelUsed : String
  toolsUsed : List String
  toolCallResults : List ToolCallResult
deriving DecidableEq, Repr

/-- `JSON.parse` of the tool-call arguments string on the execution
path: parse failure is caught and replaced by the empty object. -/
def execArgsOf : ArgPayload → Args
  | .parsable a => a
  | .malformed _ => []

/-- The parse for the database copy of the tool calls: failure is
wrapped as `\x7b raw: <string> \x7d`. -/
def dbArgsOf : ArgPayload → Args
  | .parsable a => a
  | .malformed raw => [("raw", raw)]

/-- `JSON.stringify(\x7b error: "Tool returned no result" \x7d)`. -/
def toolNoResultContent : String := "\x7b\"error\":\"Tool returned no result\"\x7d"

/-- Content of a tool-role message: the serialized result, or the
explicit error payload when the tool returned null/undefined
(serialization of the opaque pre-serialized value is the identity). -/
def toolContentOf : Option String → String
  | some v => v
  | none => toolNoResultContent

def MAX_TOOL_ROUNDS : Nat := 5

/-- The inner for-loop of one round: execute each requested tool call
sequentially, recording the result and appending the tool-role
message immediately, tagged with the tool-call id. -/
def execToolCalls (execT : String → Args → ToolExecutionResult) (conversationId : String) :
    List LLMToolCall → LoopState → List Event × LoopState
  | [], st => ([], st)
  | tc :: rest, st =>
    let args := execArgsOf tc.arguments
    let result := execT tc.name args
    let toolContent := toolContentOf result.result
    let st1 : LoopState :=
      { st with
        toolsUsed := st.toolsUsed ++ [tc.name]
        toolCallResults := st.toolCallResults ++
          [{ id := tc.id, name := tc.name, arguments := args, result := result.result }]
        messages := st.messages ++
          [{ role := Role.tool, content := some toolContent, tool_calls := [],
             tool_call_id := some tc.id }] }
    let toolAppend : AddMessageParams :=
      { conversationId := conversationId, role := Role.tool, content := toolContent,
        toolCalls := none, toolCallId := some tc.id, metadata := none }
    let out := execToolCalls execT conversationId rest st1
    (Event.execTool tc.name args :: Event.append toolAppend :: out.1, out.2)

/-- How one round of the loop ended: a thrown error (aborting the
request), a `break` with the final text captured, or fall-through to
the next round. -/
inductive RoundExit where
  | thrown (msg : String)
  | broke
  | next
deriving DecidableEq, Repr

/-- The forced tools-disabled model call made on the last permitted
round: consumes one scripted response; a throw propagates, while a
structurally invalid response is silently ignored (the optional
chaining `finalResponse?.choices?.[0]?.message`). -/
def forcedCall (st : LoopState) : LoopState × Option String :=
  match st.script with
  | [] => (st, some "no scripted response")
  | e2 :: restScript2 =>
    let st := { st with script := restScript2 }
    match e2 with
    | .error m => (st, some m)
    | .ok fresp =>
      let st :=
        match fresp.choices.head? with
        | some fc =>
          match fc.message with
          | some fm =>
            { st with responseContent := fm.content,
                      totalTokens := st.totalTokens + fresp.usage.getD 0 }
          | none => st
        | none => st
      (st, none)

/-- The body of one iteration of the `for (round = 0; round <
MAX_TOOL_ROUNDS; round++)` loop of `processMessage`: one model call
with tools enabled, response validation, then either the break with
the final text, or the persistence of the assistant turn, sequential
tool execution, and (on the last permitted round) the forced
tools-disabled call whose structural failure is silently ignored.  A
scripted-response shortage is reported as a thrown error. -/
def roundStep (execT : String → Args → ToolExecutionResult) (conversationId : String)
    (round : Nat) (st : LoopState) : List Event × LoopState × RoundExit :=
  match st.script with
  | [] => ([Event.llmCall true], st, .thrown "no scripted response")
  | e :: restScript =>
    let st := { st with script := restScript }
    match e with
    | .error m => ([Event.llmCall true], st, .thrown m)
    | .ok resp =>
      let st := { st with
        totalTokens := st.totalTokens + resp.usage.getD 0
        modelUsed := if resp.model = "" then st.modelUsed else resp.model }
      match resp.choices with
      | [] => ([Event.llmCall true], st, .thrown "Invalid LLM response: missing choices array")
      | choice :: _ =>
        match choice.message with
        | none =>
          ([Event.llmCall true], st,
           .thrown "Invalid LLM response: missing message in choices[0]")
        | some am =>
          let messageContent := am.content
          if am.tool_calls.length = 0 then
            ([Event.llmCall true], { st with responseContent := messageContent }, .broke)
          else
            let toolCallsForDb : List DbToolCall := am.tool_calls.map (fun tc =>
              { id := tc.id, name := tc.name, arguments := dbArgsOf tc.arguments })
            let st := { st with messages := st.messages ++
              [{ role := Role.assistant,
                 content := if am.content = "" then none else some am.content,
                 tool_calls := am.tool_calls, tool_call_id := none }] }
            let assistantAppend : AddMessageParams :=
              { conversationId := conversationId, role := Role.assistant,
                content := messageContent,
                toolCalls := some toolCallsForDb, toolCallId := none,
                metadata := some { tokens := resp.usage, model := some resp.model,
                                   latency := none, error := none } }
            let toolOut := execToolCalls execT conversationId am.tool_calls st
            let st := toolOut.2
            if round = MAX_TOOL_ROUNDS - 1 then
              let fc := forcedCall st
              (Event.llmCall true :: Event.append assistantAppend ::
                 (toolOut.1 ++ [Event.llmCall false]),
               fc.1,
               match fc.2 with
               | some m => .thrown m
               | none => .next)
            else
              (Event.llmCall true :: Event.append assistantAppend :: toolOut.1, st, .next)

/-- The loop of `processMessage`.  `fuel` is `MAX_TOOL_ROUNDS -
round`.  Returns the events of the remaining rounds, the final state,
and the thrown error when the request aborts. -/
def agentLoop (execT : String → Args → ToolExecutionResult) (conversationId : String) :
    Nat → Nat → LoopState → List Event × LoopState × Option String
  | 0, _, st => ([], st, none)
  | fuel + 1, round, st =>
    let step := roundStep execT conversationId round st
    match step.2.2 with
    | .thrown m => (step.1, step.2.1, some m)
    | .broke => (step.1, step.2.1, none)
    | .next =>
      let rec_ := agentLoop execT conversationId fuel (round + 1) step.2.1
      (step.1 ++ rec_.1, rec_.2)

/-- The fixed fallback apology string. -/
def APOLOGY : String := "I apologize, but I was unable to generate a response."

/-- `processMessage`: append the user turn, run the bounded loop, then
append the final assistant message (falling back to the apology when
the captured text is empty) and return the response.  A thrown error
aborts before the final append. -/
def processMessage (execT : String → Args → ToolExecutionResult)
    (script : List (Except String InvokeResult)) (conversationId : String)
    (initialMessages : List ChatMsg) (userMessage : String) :
    List Event × Except String AgentResponse :=
  let userAppend : AddMessageParams :=
    { conversationId := conversationId, role := Role.user, content := userMessage,
      toolCalls := none, toolCallId := none, metadata := none }
  let st0 : LoopState :=
    { script := script, messages := initialMessages, responseContent := "",
      totalTokens := 0, modelUsed := "", toolsUsed := [], toolCallResults := [] }
  let out := agentLoop execT conversationId MAX_TOOL_ROUNDS 0 st0
  match out.2.2 with
  | some m => (Event.append userAppend :: out.1, .error m)
  | none =>
    let st := out.2.1
    let finalAppend : AddMessageParams :=
      { conversationId := conversationId, role := Role.assistant,
        content := if st.responseContent = "" then APOLOGY else st.responseContent,
        toolCalls := none, toolCallId := none,
        metadata := some { tokens := some st.totalTokens, model := some st.modelUsed,
                           latency := none, error := none } }
    (Event.append userAppend :: (out.1 ++ [Event.append finalAppend]),
     .ok { conversationId := conversationId
           message := st.responseContent
           toolCalls := if 0 < st.toolCallResults.length then some st.toolCallResults else none
           tokens := st.totalTokens
           model := st.modelUsed
           toolsUsed := st.toolsUsed })

/-- Count of model calls in a trace, split by whether tools were offered. -/
def isLLMCall (withTools : Bool) : Event → Bool
  | .llmCall b => b == withTools
  | _ => false

def countToolCalls (evs : List Event) : Nat :=
  (evs.filter (isLLMCall true)).length

def countPlainCalls (evs : List Event) : Nat :=
  (evs.filter (isLLMCall false)).length

/-- A scripted response that is structurally valid and requests at
least one tool call. -/
def goodToolResp : Except String InvokeResult → Bool
  | .ok r =>
    match r.choices with
    | c :: _ =>
      match c.message with
      | some am => decide (0 < am.tool_calls.length)
      | none => false
    | [] => false
  | .error _ => false

/-- The (name, executed-arguments) projections of the tool-execution
events of a trace. -/
def execEventsOf (evs : List Event) : List (String × Args) :=
  evs.filterMap (fun e =>
    match e with
    | .execTool n a => some (n, a)
    | _ => none)

/-- Tool-call ids declared by a persisted assistant message. -/
def asstDeclaredIds (p : AddMessageParams) : List String :=
  (p.toolCalls.getD []).map DbToolCall.id

/-- Scan a trace keeping the set of tool-call ids declared by earlier
assistant appends; every tool-role append carrying a call id must use
an already-declared id. -/
def toolAppendsAnchored : List Event → List String → Bool
  | [], _ => true
  | e :: rest, ds =>
    match e with
    | .append p =>
      match p.role, p.toolCallId with
      | Role.tool, some cid => ds.contains cid && toolAppendsAnchored rest ds
      | Role.tool, none => toolAppendsAnchored rest ds
      | Role.assistant, _ => toolAppendsAnchored rest (ds ++ asstDeclaredIds p)
      | _, _ => toolAppendsAnchored rest ds
    | _ => toolAppendsAnchored rest ds

/-- Ids declared by the assistant appends of a trace, appended to an
initial set (the scan state of `toolAppendsAnchored`). -/
def collectDeclared (evs : List Event) (ds : List String) : List String :=
  match evs with
  | [] => ds
  | e :: rest =>
    match e with
    | .append p =>
      match p.role with
      | Role.assistant => collectDeclared rest (ds ++ asstDeclaredIds p)
      | _ => collectDeclared rest ds
    | _ => collectDeclared rest ds

/-- The assistant turn of `respTC`. -/
def respTCMsg : ChoiceMessage :=
  { content := ""
    tool_calls := [{ id := "c1", name := "lookup", arguments := .parsable [("id", "1")] }] }

/-- A model response requesting one `lookup` tool call. -/
def respTC : InvokeResult :=
  { model := "m", choices := [{ message := some respTCMsg }], usage := some 10 }

/-- A structurally invalid model response (no choices). -/
def respBad : InvokeResult := { model := "m", choices := [], usage := none }

/-- A plain-text model response with no tool calls. -/
def respText : InvokeResult :=
  { model := "m"
    choices := [{ message := some { content := "Result is 7", tool_calls := [] } }]
    usage := some 3 }

/-- The assistant turn of `respMalformed`. -/
def respMalformedMsg : ChoiceMessage :=
  { content := ""
    tool_calls := [{ id := "c9", name := "lookup", arguments := .malformed "\x7bnot-json" }] }

/-- A model response whose single tool call has unparseable arguments. -/
def respMalformed : InvokeResult :=
  { model := "m", choices := [{ message := some respMalformedMsg }], usage := some 4 }

/-- A tool executor stub that always succeeds. -/
def execTok : String → Args → ToolExecutionResult :=
  fun _ _ => { success := true, result := some "\"ok\"", error := none, executionTimeMs := 0 }

/-- Scenario D script: tool calls on all five rounds, then a
structurally failing forced call. -/
def scriptD : List (Except String InvokeResult) :=
  (List.replicate 5 (Except.ok respTC)) ++ [Except.ok respBad]

/-- A six-entry script of structurally valid tool-requesting rounds. -/
def scriptAllTools : List (Except String InvokeResult) :=
  List.replicate 6 (Except.ok respTC)

/-- Script: one tool round, then a plain-text answer. -/
def scriptOneRound : List (Except String InvokeResult) :=
  [Except.ok respTC, Except.ok respText]

/-- Script: one round whose tool call has malformed arguments, then a
plain-text answer. -/
def scriptMalformed : List (Except String InvokeResult) :=
  [Except.ok respMalformed, Except.ok respText]

/-- The final persisted assistant message of scenario D: the apology
fallback with the accumulated metadata. -/
def apologyAppend : AddMessageParams :=
  { conversationId := "conv", role := Role.assistant, content := APOLOGY,
    toolCalls := none, toolCallId := none,
    metadata := some { tokens := some 50, model := some "m", latency := none, error := none } }

/-- The persisted user turn of the one-round scenario. -/
def wUserAppend : AddMessageParams :=
  { conversationId := "conv", role := Role.user, content := "hi",
    toolCalls := none, toolCallId := none, metadata := none }

/-- The persisted assistant-with-tool-calls turn of the one-round scenario. -/
def wAsstAppend : AddMessageParams :=
  { conversationId := "conv", role := Role.assistant, content := "",
    toolCalls := some [{ id := "c1", name := "lookup", arguments := [("id", "1")] }],
    toolCallId := none,
    metadata := some { tokens := some 10, model := some "m", latency := none, error := none } }

/-- The persisted tool response of the one-round scenario. -/
def wToolAppend : AddMessageParams :=
  { conversationId := "conv", role := Role.tool, content := "\"ok\"",
    toolCalls := none, toolCallId := some "c1", metadata := none }

/-- The persisted final assistant turn of the one-round scenario. -/
def wFinalAppend : AddMessageParams :=
  { conversationId := "conv", role := Role.assistant, content := "Result is 7",
    toolCalls := none, toolCallId := none,
    metadata := some { tokens := some 13, model := some "m", latency := none, error := none } }

/-- A tool-role append with no `toolCallId` supplied. -/
def toolNoIdParams : AddMessageParams :=
  { conversationId := "c1", role := Role.tool, content := "r",
    toolCalls := none, toolCallId := none, metadata := none }

/-! ## Theorems -/

/-- Helper: the returned result of `executeTool` does not depend on the
audit insert outcome nor on the generated action id (they only affect
the audit rows). -/
theorem executeTool_res_indep (reg : Registry) (a1 a2 : Bool) (i1 i2 : String)
    (toolName : String) (args : Args) (ctx : ToolExecutionContext) :
    (executeTool reg a1 i1 toolName args ctx).res =
      (executeTool reg a2 i2 toolName args ctx).res := by
  unfold executeTool
  cases reg toolName with
  | none => rfl
  | some tool =>
    simp only
    by_cases h : (tool.parameters.required.filter (fun p => !(hasKey args p))).length > 0
    · simp only [h, if_pos]
    · simp only [h, if_neg, if_false]
      cases tool.handler args ctx <;> rfl

/-- C3: for a registered tool with required parameters, executing with
one or more of them absent from the argument map returns
`success:false` with the enumerated `Missing required parameters`
message and never invokes the handler; concretely, `lookup` requiring
`{id}` called with `{}` fails with "Missing required parameters: id". -/
theorem executeTool_missing_required_params :
    (∀ (reg : Registry) (auditOk : Bool) (actionId toolName : String) (args : Args)
        (ctx : ToolExecutionContext) (tool : ToolDefinition),
      reg toolName = some tool →
      tool.parameters.required ≠ [] →
      (tool.parameters.required.filter (fun p => !(hasKey args p))) ≠ [] →
      (executeTool reg auditOk actionId toolName args ctx).res.success = false ∧
      (executeTool reg auditOk actionId toolName args ctx).res.error =
        some ("Missing required parameters: " ++
          String.intercalate ", " (tool.parameters.required.filter (fun p => !(hasKey args p)))) ∧
      (executeTool reg auditOk actionId toolName args ctx).handlerCalls = []) ∧
    ((executeTool (registerTools [lookupTool]) true "a1" "lookup" [] ctx0).res.success = false ∧
     (executeTool (registerTools [lookupTool]) true "a1" "lookup" [] ctx0).res.error =
       some "Missing required parameters: id") := by
  constructor
  · intro reg auditOk actionId toolName args ctx tool hreg _hne hmiss
    have hlen : (tool.parameters.required.filter (fun p => !(hasKey args p))).length > 0 :=
      List.length_pos.mpr hmiss
    unfold executeTool
    rw [hreg]
    simp only [hlen, if_pos]
    exact ⟨trivial, trivial, trivial⟩
  · constructor <;> decide

/-- C3 witness: the universal statement applied at the concrete
`lookup` scenario with empty arguments. -/
theorem executeTool_missing_required_params_witness :
    (executeTool (registerTools [lookupTool]) true "a1" "lookup" [] ctx0).res.success = false ∧
    (executeTool (registerTools [lookupTool]) true "a1" "lookup" [] ctx0).res.error =
      some ("Missing required parameters: " ++
        String.intercalate ", " (lookupTool.parameters.required.filter (fun p => !(hasKey [] p)))) ∧
    (executeTool (registerTools [lookupTool]) true "a1" "lookup" [] ctx0).handlerCalls = [] :=
  executeTool_missing_required_params.1 (registerTools [lookupTool]) true "a1" "lookup" [] ctx0
    lookupTool rfl (by decide) (by decide)

/-- C4: a handler that raises yields `success:false` with the raised
message (the exception is converted, not propagated); when the audit
insert works, exactly one audit record is written and it has
`success=0`; every written audit record for the attempt has
`success=0`; and an audit write failure never changes the returned
result. -/
theorem executeTool_handler_failure_isolated :
    ∀ (reg : Registry) (auditOk : Bool) (actionId toolName : String) (args : Args)
      (ctx : ToolExecutionContext) (tool : ToolDefinition) (m : String),
      reg toolName = some tool →
      (tool.parameters.required.filter (fun p => !(hasKey args p))) = [] →
      tool.handler args ctx = .error m →
      (executeTool reg auditOk actionId toolName args ctx).res =
        { success := false, result := none, error := some m, executionTimeMs := 0 } ∧
      (auditOk = true →
        (executeTool reg auditOk actionId toolName args ctx).audits =
          [failAudit actionId ctx toolName args m]) ∧
      (∀ r ∈ (executeTool reg auditOk actionId toolName args ctx).audits, r.success = 0) ∧
      (executeTool reg true actionId toolName args ctx).res =
        (executeTool reg false actionId toolName args ctx).res := by
  intro reg auditOk actionId toolName args ctx tool m hreg hnomiss hhandler
  have hlen : ¬ (tool.parameters.required.filter (fun p => !(hasKey args p))).length > 0 := by
    rw [hnomiss]; decide
  refine ⟨?_, ?_, ?_, executeTool_res_indep reg true false actionId actionId toolName args ctx⟩
  · unfold executeTool
    rw [hreg]
    simp only [hlen, if_neg, if_false]
    rw [hhandler]
  · intro hok
    subst hok
    unfold executeTool
    rw [hreg]
    simp only [hlen, if_neg, if_false]
    rw [hhandler]
    rfl
  · intro r hr
    unfold executeTool at hr
    rw [hreg] at hr
    simp only [hlen, if_neg, if_false] at hr
    rw [hhandler] at hr
    cases auditOk with
    | true =>
      simp [logAction] at hr
      rw [hr]; rfl
    | false =>
      simp [logAction] at hr

/-- C4 witness: the theorem applied to the concrete always-raising tool. -/
theorem executeTool_handler_failure_isolated_witness :
    (executeTool (registerTools [failingTool]) true "a2" "boom" [] ctx0).res =
      { success := false, result := none, error := some "boom failed", executionTimeMs := 0 } ∧
    (true = true →
      (executeTool (registerTools [failingTool]) true "a2" "boom" [] ctx0).audits =
        [failAudit "a2" ctx0 "boom" [] "boom failed"]) ∧
    (∀ r ∈ (executeTool (registerTools [failingTool]) true "a2" "boom" [] ctx0).audits,
      r.success = 0) ∧
    (executeTool (registerTools [failingTool]) true "a2" "boom" [] ctx0).res =
      (executeTool (registerTools [failingTool]) false "a2" "boom" [] ctx0).res :=
  executeTool_handler_failure_isolated (registerTools [failingTool]) true "a2" "boom" [] ctx0
    failingTool "boom failed" rfl (by decide) rfl

/-- Helper: when every call in the list succeeds, `executeTools` runs
them all in order. -/
theorem executeTools_map_res_all_success (reg : Registry) (auditOk : Bool)
    (uuidGen : Nat → String) (ctx : ToolExecutionContext) :
    ∀ (calls : List BatchCall) (k : Nat),
      (∀ p ∈ calls, (executeTool reg auditOk "" p.name p.arguments ctx).res.success = true) →
      (executeTools reg auditOk uuidGen ctx calls k).map ExecOut.res =
        calls.map (fun p => (executeTool reg auditOk "" p.name p.arguments ctx).res) := by
  intro calls
  induction calls with
  | nil => intro k _; rfl
  | cons c rest ih =>
    intro k h
    have hres : (executeTool reg auditOk (uuidGen k) c.name c.arguments ctx).res =
        (executeTool reg auditOk "" c.name c.arguments ctx).res :=
      executeTool_res_indep reg auditOk auditOk (uuidGen k) "" c.name c.arguments ctx
    have hc : (executeTool reg auditOk (uuidGen k) c.name c.arguments ctx).res.success = true := by
      rw [hres]; exact h c (List.mem_cons_self _ _)
    unfold executeTools
    rw [if_pos hc]
    simp only [List.map_cons]
    rw [hres]
    exact congrArg _ (ih (k + 1) (fun p hp => h p (List.mem_cons_of_mem _ hp)))

/-- Helper: `executeTools` on successes followed by a failing call
returns exactly the prefix results plus the failing result. -/
theorem executeTools_map_res_stops (reg : Registry) (auditOk : Bool)
    (uuidGen : Nat → String) (ctx : ToolExecutionContext) :
    ∀ (pre : List BatchCall) (c : BatchCall) (suf : List BatchCall) (k : Nat),
      (∀ p ∈ pre, (executeTool reg auditOk "" p.name p.arguments ctx).res.success = true) →
      (executeTool reg auditOk "" c.name c.arguments ctx).res.success = false →
      (executeTools reg auditOk uuidGen ctx (pre ++ c :: suf) k).map ExecOut.res =
        pre.map (fun p => (executeTool reg auditOk "" p.name p.arguments ctx).res) ++
          [(executeTool reg auditOk "" c.name c.arguments ctx).res] := by
  intro pre
  induction pre with
  | nil =>
    intro c suf k _ hfail
    have hres : (executeTool reg auditOk (uuidGen k) c.name c.arguments ctx).res =
        (executeTool reg auditOk "" c.name c.arguments ctx).res :=
      executeTool_res_indep reg auditOk auditOk (uuidGen k) "" c.name c.arguments ctx
    have hc : ¬ (executeTool reg auditOk (uuidGen k) c.name c.arguments ctx).res.success = true := by
      rw [hres, hfail]; simp
    simp only [List.nil_append]
    unfold executeTools
    rw [if_neg hc]
    simp only [List.map_cons, List.map_nil, List.nil_append]
    rw [hres]
  | cons p rest ih =>
    intro c suf k hpre hfail
    have hres : (executeTool reg auditOk (uuidGen k) p.name p.arguments ctx).res =
        (executeTool reg auditOk "" p.name p.arguments ctx).res :=
      executeTool_res_indep reg auditOk auditOk (uuidGen k) "" p.name p.arguments ctx
    have hp : (executeTool reg auditOk (uuidGen k) p.name p.arguments ctx).res.success = true := by
      rw [hres]; exact hpre p (List.mem_cons_self _ _)
    simp only [List.cons_append]
    unfold executeTools
    rw [if_pos hp]
    simp only [List.map_cons]
    rw [hres]
    exact congrArg _ (ih c suf (k + 1) (fun q hq => hpre q (List.mem_cons_of_mem _ hq)) hfail)

/-- C10: the batch operation `executeTools` runs the calls strictly
sequentially in list order and stops at the first failure: the
returned list is exactly the results of the calls up to and including
the first one with `success:false` (so no call after the first failing
one is executed), and when no call fails every call is run in order. -/
theorem executeTools_stop_at_first_failure :
    (∀ (reg : Registry) (auditOk : Bool) (uuidGen : Nat → String) (ctx : ToolExecutionContext)
        (pre : List BatchCall) (c : BatchCall) (suf : List BatchCall),
      (∀ p ∈ pre, (executeTool reg auditOk "" p.name p.arguments ctx).res.success = true) →
      (executeTool reg auditOk "" c.name c.arguments ctx).res.success = false →
      executeToolsResults reg auditOk uuidGen ctx (pre ++ c :: suf) =
        pre.map (fun p => (executeTool reg auditOk "" p.name p.arguments ctx).res) ++
          [(executeTool reg auditOk "" c.name c.arguments ctx).res] ∧
      (executeTools reg auditOk uuidGen ctx (pre ++ c :: suf) 0).length = pre.length + 1) ∧
    (∀ (reg : Registry) (auditOk : Bool) (uuidGen : Nat → String) (ctx : ToolExecutionContext)
        (calls : List BatchCall),
      (∀ p ∈ calls, (executeTool reg auditOk "" p.name p.arguments ctx).res.success = true) →
      executeToolsResults reg auditOk uuidGen ctx calls =
        calls.map (fun p => (executeTool reg auditOk "" p.name p.arguments ctx).res)) := by
  constructor
  · intro reg auditOk uuidGen ctx pre c suf hpre hfail
    have hmap := executeTools_map_res_stops reg auditOk uuidGen ctx pre c suf 0 hpre hfail
    refine ⟨hmap, ?_⟩
    have hlen := congrArg List.length hmap
    simp only [List.length_map, List.length_append, List.length_cons,
      List.length_nil] at hlen
    omega
  · intro reg auditOk uuidGen ctx calls h
    exact executeTools_map_res_all_success reg auditOk uuidGen ctx calls 0 h

/-- C10 witness: with a succeeding `lookup` call, a raising `boom`
call, and a further `lookup` call queued behind it, the batch returns
exactly two results and the trailing call is never run. -/
theorem executeTools_stop_at_first_failure_witness :
    executeToolsResults batchReg true (fun _ => "u") ctx0 ([callOk] ++ callBad :: [callOk]) =
      [callOk].map (fun p => (executeTool batchReg true "" p.name p.arguments ctx0).res) ++
        [(executeTool batchReg true "" callBad.name callBad.arguments ctx0).res] ∧
    (executeTools batchReg true (fun _ => "u") ctx0 ([callOk] ++ callBad :: [callOk]) 0).length =
      [callOk].length + 1 :=
  executeTools_stop_at_first_failure.1 batchReg true (fun _ => "u") ctx0 [callOk] callBad [callOk]
    (by decide) (by decide)

/-- Helper: the retry loop never makes more than `MAX_RETRIES` attempts. -/
theorem invokeGo_attempts_le (fetchO : Nat → FetchOutcome)
    (parse : String → Option InvokeResult) :
    ∀ (fuel attempt : Nat) (delays : List Nat), attempt ≤ MAX_RETRIES →
      (invokeGo fetchO parse fuel attempt delays).attempts ≤ MAX_RETRIES := by
  intro fuel
  induction fuel with
  | zero =>
    intro attempt delays h
    simp only [invokeGo]
    exact Nat.le_trans (Nat.sub_le attempt 1) h
  | succ fuel ih =>
    intro attempt delays h
    cases htb : tryBody parse (fetchO attempt) with
    | ok r => simp only [invokeGo, htb]; exact h
    | error m =>
      simp only [invokeGo, htb]
      by_cases hc : (isRetryable m = true) ∧ attempt < MAX_RETRIES
      · rw [if_pos hc]
        exact ih (attempt + 1) _ hc.2
      · rw [if_neg hc]
        exact h

/-- Helper: one-step unfolding of the retry loop. -/
theorem invokeGo_succ (fetchO : Nat → FetchOutcome) (parse : String → Option InvokeResult)
    (fuel attempt : Nat) (delays : List Nat) :
    invokeGo fetchO parse (fuel + 1) attempt delays =
      match tryBody parse (fetchO attempt) with
      | .ok r => { delays := delays, attempts := attempt, outcome := .ok r }
      | .error m =>
        if isRetryable m ∧ attempt < MAX_RETRIES then
          invokeGo fetchO parse fuel (attempt + 1) (delays ++ [RETRY_DELAY_MS * attempt])
        else { delays := delays, attempts := attempt, outcome := .error m } := rfl

/-- C6: `invokeLLM` makes at most 3 attempts; a first-attempt error
whose message is not classified transient is thrown immediately with
no backoff sleep; three transient failures give exactly 3 attempts
with linear backoff `attempt × 1000ms` (1000 then 2000) before the
last error is thrown; and concretely a 502 on attempt 1 followed by a
good body is retried once after a 1000ms sleep and succeeds. -/
theorem invokeLLM_retry_policy :
    (∀ (fetchO : Nat → FetchOutcome) (parse : String → Option InvokeResult),
      (invokeLLM fetchO parse).attempts ≤ 3) ∧
    (∀ (fetchO : Nat → FetchOutcome) (parse : String → Option InvokeResult) (m : String),
      tryBody parse (fetchO 1) = .error m → isRetryable m = false →
      invokeLLM fetchO parse = { delays := [], attempts := 1, outcome := .error m }) ∧
    (∀ (fetchO : Nat → FetchOutcome) (parse : String → Option InvokeResult) (m1 m2 m3 : String),
      tryBody parse (fetchO 1) = .error m1 → isRetryable m1 = true →
      tryBody parse (fetchO 2) = .error m2 → isRetryable m2 = true →
      tryBody parse (fetchO 3) = .error m3 → isRetryable m3 = true →
      invokeLLM fetchO parse =
        { delays := [RETRY_DELAY_MS * 1, RETRY_DELAY_MS * 2], attempts := 3,
          outcome := .error m3 }) ∧
    invokeLLM fetch502 parseOk = { delays := [1000], attempts := 2, outcome := .ok r0 } := by
  refine ⟨?_, ?_, ?_, ?_⟩
  · intro fetchO parse
    exact invokeGo_attempts_le fetchO parse MAX_RETRIES 1 [] (by decide)
  · intro fetchO parse m h1 hr
    show invokeGo fetchO parse (2 + 1) 1 [] = _
    rw [invokeGo_succ]
    simp only [h1]
    rw [if_neg (by simp [hr])]
  · intro fetchO parse m1 m2 m3 h1 hr1 h2 hr2 h3 hr3
    show invokeGo fetchO parse (2 + 1) 1 [] = _
    rw [invokeGo_succ]
    simp only [h1]
    rw [if_pos (And.intro hr1 (by decide))]
    show invokeGo fetchO parse (1 + 1) 2 ([] ++ [RETRY_DELAY_MS * 1]) = _
    rw [invokeGo_succ]
    simp only [h2]
    rw [if_pos (And.intro hr2 (by decide))]
    show invokeGo fetchO parse (0 + 1) 3 (([] ++ [RETRY_DELAY_MS * 1]) ++ [RETRY_DELAY_MS * 2]) = _
    rw [invokeGo_succ]
    simp only [h3]
    rw [if_neg (fun hc => absurd hc.2 (by decide))]
    simp
  · decide

/-- C6 witness: three consecutive connection resets produce exactly 3
attempts with backoff sleeps of 1000ms and 2000ms and rethrow the last
error. -/
theorem invokeLLM_retry_policy_witness :
    invokeLLM fetchReset parseOk =
      { delays := [RETRY_DELAY_MS * 1, RETRY_DELAY_MS * 2], attempts := 3,
        outcome := .error "socket hang up ECONNRESET" } :=
  invokeLLM_retry_policy.2.2.1 fetchReset parseOk
    "socket hang up ECONNRESET" "socket hang up ECONNRESET" "socket hang up ECONNRESET"
    rfl (by decide) rfl (by decide) rfl (by decide)

/-- C9 counterexample: `addMessage` accepts a tool-role append without
any `toolCallId`; the stored tool message has a NULL `toolCallId`,
refuting the claim that a non-empty `toolCallId` is required and that
the stored value is non-empty. -/
theorem addMessage_tool_append_without_toolCallId :
    (addMessage "m1" toolNoIdParams).role = Role.tool ∧
    (addMessage "m1" toolNoIdParams).toolCallId = none :=
  ⟨rfl, rfl⟩

/-- C9 (amended): `addMessage` validates nothing about `toolCallId`;
the stored message carries exactly the supplied `toolCallId` (NULL
when the parameter is absent), for tool-role appends as for any other
role, and likewise stores the other fields verbatim. -/
theorem addMessage_stores_fields_verbatim :
    ∀ (messageId : String) (params : AddMessageParams),
      (addMessage messageId params).toolCallId = params.toolCallId ∧
      (addMessage messageId params).role = params.role ∧
      (addMessage messageId params).content = params.content ∧
      (addMessage messageId params).toolCalls = params.toolCalls :=
  fun _ _ => ⟨rfl, rfl, rfl, rfl⟩

/-- Helper: the tool-execution loop of a round produces exactly one
execution event per requested call, in order, with the
parsed-or-empty arguments. -/
theorem execToolCalls_events (execT : String → Args → ToolExecutionResult)
    (conversationId : String) :
    ∀ (tcs : List LLMToolCall) (st : LoopState),
      execEventsOf (execToolCalls execT conversationId tcs st).1 =
        tcs.map (fun tc => (tc.name, execArgsOf tc.arguments)) := by
  intro tcs
  induction tcs with
  | nil => intro st; rfl
  | cons tc rest ih =>
    intro st
    simp only [execToolCalls, execEventsOf, List.filterMap_cons, List.map_cons]
    exact congrArg _ (ih _)

/-- C8: tool-call arguments that fail to parse as JSON are replaced by
the empty argument set and the call still executes: the execution-path
parse of a malformed payload is `\x7b\x7d`, every requested call of a
round is executed in order with its parsed-or-empty arguments, and
concretely a round whose only tool call carries malformed arguments
still executes that tool with empty arguments. -/
theorem toolcall_malformed_args_executes_empty :
    (∀ raw, execArgsOf (ArgPayload.malformed raw) = []) ∧
    (∀ (execT : String → Args → ToolExecutionResult) (conversationId : String)
        (tcs : List LLMToolCall) (st : LoopState),
      execEventsOf (execToolCalls execT conversationId tcs st).1 =
        tcs.map (fun tc => (tc.name, execArgsOf tc.arguments))) ∧
    execEventsOf (processMessage execTok scriptMalformed "conv" [] "hi").1 =
      [("lookup", [])] :=
  ⟨fun _ => rfl,
   fun execT conversationId tcs st => execToolCalls_events execT conversationId tcs st,
   by decide⟩

/-- C7 counterexample: with tool calls scripted on all five rounds and
a structurally failing forced call, the request completes, but the
returned `message` field is the empty captured text, not the apology
string the claim requires. -/
theorem forced_call_fallback_cx :
    (processMessage execTok scriptD "conv" [] "hi").2.map AgentResponse.message =
      Except.ok "" ∧ ("" : String) ≠ APOLOGY :=
  ⟨by decide, by decide⟩

/-- C7 (amended): when the model requests tool calls on all 5 rounds,
exactly 5 tool-bearing model calls happen plus one forced
tools-disabled call; a structural failure of the forced call does not
abort the request: the run returns successfully, the persisted final
assistant message is the fixed apology string, while the returned
response `message` is the empty captured text. -/
theorem forced_call_fallback_amended :
    countToolCalls (processMessage execTok scriptD "conv" [] "hi").1 = 5 ∧
    countPlainCalls (processMessage execTok scriptD "conv" [] "hi").1 = 1 ∧
    (processMessage execTok scriptD "conv" [] "hi").1.getLast? =
      some (Event.append apologyAppend) ∧
    (processMessage execTok scriptD "conv" [] "hi").2.map AgentResponse.message =
      Except.ok "" :=
  ⟨by decide, by decide, by decide, by decide⟩

/-! Counting lemmas for the model-call events of a trace. -/

theorem countToolCalls_nil : countToolCalls [] = 0 := rfl

theorem countPlainCalls_nil : countPlainCalls [] = 0 := rfl

theorem countToolCalls_append (a b : List Event) :
    countToolCalls (a ++ b) = countToolCalls a + countToolCalls b := by
  simp [countToolCalls, List.filter_append]

theorem countPlainCalls_append (a b : List Event) :
    countPlainCalls (a ++ b) = countPlainCalls a + countPlainCalls b := by
  simp [countPlainCalls, List.filter_append]

theorem countToolCalls_cons_llmTrue (evs : List Event) :
    countToolCalls (Event.llmCall true :: evs) = countToolCalls evs + 1 := by
  simp [countToolCalls, List.filter_cons, isLLMCall]

theorem countToolCalls_cons_llmFalse (evs : List Event) :
    countToolCalls (Event.llmCall false :: evs) = countToolCalls evs := by
  simp [countToolCalls, List.filter_cons, isLLMCall]

theorem countToolCalls_cons_appendEv (p : AddMessageParams) (evs : List Event) :
    countToolCalls (Event.append p :: evs) = countToolCalls evs := by
  simp [countToolCalls, List.filter_cons, isLLMCall]

theorem countToolCalls_cons_execEv (n : String) (a : Args) (evs : List Event) :
    countToolCalls (Event.execTool n a :: evs) = countToolCalls evs := by
  simp [countToolCalls, List.filter_cons, isLLMCall]

theorem countPlainCalls_cons_llmTrue (evs : List Event) :
    countPlainCalls (Event.llmCall true :: evs) = countPlainCalls evs := by
  simp [countPlainCalls, List.filter_cons, isLLMCall]

theorem countPlainCalls_cons_llmFalse (evs : List Event) :
    countPlainCalls (Event.llmCall false :: evs) = countPlainCalls evs + 1 := by
  simp [countPlainCalls, List.filter_cons, isLLMCall]

theorem countPlainCalls_cons_appendEv (p : AddMessageParams) (evs : List Event) :
    countPlainCalls (Event.append p :: evs) = countPlainCalls evs := by
  simp [countPlainCalls, List.filter_cons, isLLMCall]

theorem countPlainCalls_cons_execEv (n : String) (a : Args) (evs : List Event) :
    countPlainCalls (Event.execTool n a :: evs) = countPlainCalls evs := by
  simp [countPlainCalls, List.filter_cons, isLLMCall]

/-- Helper: the tool-execution loop performs no model calls. -/
theorem execToolCalls_countToolCalls (execT : String → Args → ToolExecutionResult)
    (cid : String) :
    ∀ (tcs : List LLMToolCall) (st : LoopState),
      countToolCalls (execToolCalls execT cid tcs st).1 = 0 := by
  intro tcs
  induction tcs with
  | nil => intro st; rfl
  | cons tc rest ih =>
    intro st
    simp only [execToolCalls, countToolCalls_cons_execEv, countToolCalls_cons_appendEv]
    exact ih _

theorem execToolCalls_countPlainCalls (execT : String → Args → ToolExecutionResult)
    (cid : String) :
    ∀ (tcs : List LLMToolCall) (st : LoopState),
      countPlainCalls (execToolCalls execT cid tcs st).1 = 0 := by
  intro tcs
  induction tcs with
  | nil => intro st; rfl
  | cons tc rest ih =>
    intro st
    simp only [execToolCalls, countPlainCalls_cons_execEv, countPlainCalls_cons_appendEv]
    exact ih _

/-- Helper: the tool-execution loop does not touch the remaining script. -/
theorem execToolCalls_script (execT : String → Args → ToolExecutionResult) (cid : String) :
    ∀ (tcs : List LLMToolCall) (st : LoopState),
      (execToolCalls execT cid tcs st).2.script = st.script := by
  intro tcs
  induction tcs with
  | nil => intro st; rfl
  | cons tc rest ih =>
    intro st
    simp only [execToolCalls]
    exact ih _

/-- Helper: one round makes at most one tools-enabled model call. -/
theorem roundStep_toolCalls_le_one (execT : String → Args → ToolExecutionResult)
    (cid : String) (round : Nat) (st : LoopState) :
    countToolCalls (roundStep execT cid round st).1 ≤ 1 := by
  unfold roundStep
  repeat' split
  all_goals
    simp only [countToolCalls_cons_llmTrue, countToolCalls_cons_appendEv,
      countToolCalls_cons_llmFalse, countToolCalls_cons_execEv, countToolCalls_append,
      execToolCalls_countToolCalls, countToolCalls_nil, Nat.zero_add, Nat.add_zero]
  all_goals omega

/-- Helper: the loop makes at most `fuel` tool-bearing model calls. -/
theorem agentLoop_toolCalls_le (execT : String → Args → ToolExecutionResult) (cid : String) :
    ∀ (fuel round : Nat) (st : LoopState),
      countToolCalls (agentLoop execT cid fuel round st).1 ≤ fuel := by
  intro fuel
  induction fuel with
  | zero => intro round st; simp [agentLoop, countToolCalls]
  | succ fuel ih =>
    intro round st
    simp only [agentLoop]
    split
    · exact Nat.le_trans (roundStep_toolCalls_le_one execT cid round st) (by omega)
    · exact Nat.le_trans (roundStep_toolCalls_le_one execT cid round st) (by omega)
    · simp only [countToolCalls_append]
      have h1 := roundStep_toolCalls_le_one execT cid round st
      have h2 := ih (round + 1) (roundStep execT cid round st).2.1
      omega

/-- Helper: the forced call on a structurally valid scripted response
consumes it, captures its text, and reports no error. -/
theorem forcedCall_good (st : LoopState) (fresp : InvokeResult) (rest2 : List (Except String InvokeResult))
    (c2 : Choice) (c2tail : List Choice) (fm : ChoiceMessage) :
    st.script = Except.ok fresp :: rest2 → fresp.choices = c2 :: c2tail → c2.message = some fm →
    (forcedCall st).2 = none ∧ (forcedCall st).1.script = rest2 := by
  obtain ⟨scr, msgs, rc, tt, mu, tu, tcr⟩ := st
  intro hs hc hm
  simp only at hs
  subst hs
  unfold forcedCall
  dsimp only
  rw [hc]
  dsimp only [List.head?]
  rw [hm]
  exact ⟨rfl, rfl⟩

/-- Helper: a non-final round on a valid tool-requesting response
makes one tools-enabled call, no plain call, consumes one script
entry, and falls through to the next round. -/
theorem roundStep_good_normal (execT : String → Args → ToolExecutionResult) (cid : String)
    (round : Nat) (st : LoopState) (resp : InvokeResult)
    (rest : List (Except String InvokeResult)) (c : Choice) (ctail : List Choice)
    (am : ChoiceMessage) :
    ¬(round = MAX_TOOL_ROUNDS - 1) →
    st.script = Except.ok resp :: rest → resp.choices = c :: ctail → c.message = some am →
    ¬(am.tool_calls.length = 0) →
    countToolCalls (roundStep execT cid round st).1 = 1 ∧
    countPlainCalls (roundStep execT cid round st).1 = 0 ∧
    (roundStep execT cid round st).2.1.script = rest ∧
    (roundStep execT cid round st).2.2 = RoundExit.next := by
  obtain ⟨scr, msgs, rc, tt, mu, tu, tcr⟩ := st
  intro hr hs hc hm htc
  simp only at hs
  subst hs
  unfold roundStep
  dsimp only
  rw [hc]
  dsimp only
  rw [hm]
  dsimp only
  rw [if_neg htc, if_neg hr]
  refine ⟨?_, ?_, ?_, rfl⟩
  · simp only [countToolCalls_cons_llmTrue, countToolCalls_cons_appendEv,
      execToolCalls_countToolCalls]
  · simp only [countPlainCalls_cons_llmTrue, countPlainCalls_cons_appendEv,
      execToolCalls_countPlainCalls]
  · rw [execToolCalls_script]

/-- Helper: the last permitted round on a valid tool-requesting
response followed by a structurally valid scripted answer makes one
tools-enabled call and one forced tools-disabled call, consumes two
script entries, and falls through. -/
theorem roundStep_good_forced (execT : String → Args → ToolExecutionResult) (cid : String)
    (round : Nat) (st : LoopState) (resp : InvokeResult) (c : Choice) (ctail : List Choice)
    (am : ChoiceMessage) (fresp : InvokeResult)
    (rest2 : List (Except String InvokeResult)) (c2 : Choice) (c2tail : List Choice)
    (fm : ChoiceMessage) :
    round = MAX_TOOL_ROUNDS - 1 →
    st.script = Except.ok resp :: Except.ok fresp :: rest2 →
    resp.choices = c :: ctail → c.message = some am →
    ¬(am.tool_calls.length = 0) →
    fresp.choices = c2 :: c2tail → c2.message = some fm →
    countToolCalls (roundStep execT cid round st).1 = 1 ∧
    countPlainCalls (roundStep execT cid round st).1 = 1 ∧
    (roundStep execT cid round st).2.1.script = rest2 ∧
    (roundStep execT cid round st).2.2 = RoundExit.next := by
  obtain ⟨scr, msgs, rc, tt, mu, tu, tcr⟩ := st
  intro hr hs hc hm htc hc2 hm2
  simp only at hs
  subst hs
  unfold roundStep
  dsimp only
  rw [hc]
  dsimp only
  rw [hm]
  dsimp only
  rw [if_neg htc, if_pos hr]
  have hscript : (execToolCalls execT cid am.tool_calls
      { script := Except.ok fresp :: rest2
        messages := msgs ++
          [{ role := Role.assistant,
             content := if am.content = "" then none else some am.content,
             tool_calls := am.tool_calls, tool_call_id := none }]
        responseContent := rc
        totalTokens := tt + resp.usage.getD 0
        modelUsed := if resp.model = "" then mu else resp.model
        toolsUsed := tu
        toolCallResults := tcr }).2.script = Except.ok fresp :: rest2 := by
    rw [execToolCalls_script]
  obtain ⟨hfc2, hfc1⟩ := forcedCall_good _ fresp rest2 c2 c2tail fm hscript hc2 hm2
  refine ⟨?_, ?_, ?_, ?_⟩
  · simp only [countToolCalls_cons_llmTrue, countToolCalls_cons_appendEv,
      countToolCalls_append, execToolCalls_countToolCalls, countToolCalls_cons_llmFalse,
      countToolCalls_nil]
  · simp only [countPlainCalls_cons_llmTrue, countPlainCalls_cons_appendEv,
      countPlainCalls_append, execToolCalls_countPlainCalls, countPlainCalls_cons_llmFalse,
      countPlainCalls_nil]
  · exact hfc1
  · dsimp only
    rw [hfc2]

/-- Helper: with structurally valid tool-requesting responses scripted
for every call and enough entries, the loop runs all remaining rounds,
makes one forced tools-disabled call on the last round, and returns
without error. -/
theorem agentLoop_all_tools (execT : String → Args → ToolExecutionResult) (cid : String) :
    ∀ (fuel round : Nat) (st : LoopState),
      round + fuel = MAX_TOOL_ROUNDS → 1 ≤ fuel →
      (∀ e ∈ st.script, goodToolResp e = true) →
      fuel + 1 ≤ st.script.length →
      countToolCalls (agentLoop execT cid fuel round st).1 = fuel ∧
      countPlainCalls (agentLoop execT cid fuel round st).1 = 1 ∧
      (agentLoop execT cid fuel round st).2.2 = none := by
  intro fuel
  induction fuel with
  | zero => intro round st _ h2 _ _; exact absurd h2 (by decide)
  | succ n ih =>
    intro round st hsum hpos hgood hlen
    cases hs : st.script with
    | nil => rw [hs] at hlen; exact absurd hlen (by simp)
    | cons e rest =>
      have hge : goodToolResp e = true := hgood e (by rw [hs]; exact List.mem_cons_self e rest)
      cases e with
      | error m => exact absurd hge (by simp [goodToolResp])
      | ok resp =>
        simp only [goodToolResp] at hge
        cases hc : resp.choices with
        | nil => rw [hc] at hge; simp at hge
        | cons c ctail =>
          rw [hc] at hge
          cases hm : c.message with
          | none => simp [hm] at hge
          | some am =>
            simp [hm] at hge
            have htc : ¬(am.tool_calls.length = 0) := by omega
            by_cases hr : round = MAX_TOOL_ROUNDS - 1
            · have h5 : round + (n + 1) = 5 := hsum
              have h4 : round = 4 := hr
              have hn : n = 0 := by omega
              subst hn
              have hrlen : 1 ≤ rest.length := by
                rw [hs] at hlen; simp only [List.length_cons] at hlen; omega
              cases hrest : rest with
              | nil => rw [hrest] at hrlen; simp at hrlen
              | cons e2 rest2 =>
                have hge2 : goodToolResp e2 = true := by
                  refine hgood e2 ?_
                  rw [hs, hrest]
                  exact List.mem_cons_of_mem _ (List.mem_cons_self e2 rest2)
                cases e2 with
                | error m => exact absurd hge2 (by simp [goodToolResp])
                | ok fresp =>
                  simp only [goodToolResp] at hge2
                  cases hc2 : fresp.choices with
                  | nil => rw [hc2] at hge2; simp at hge2
                  | cons c2 c2tail =>
                    rw [hc2] at hge2
                    cases hm2 : c2.message with
                    | none => simp [hm2] at hge2
                    | some fm =>
                      have hs2 : st.script = Except.ok resp :: Except.ok fresp :: rest2 := by
                        rw [hs, hrest]
                      obtain ⟨ht, hp, hscr, hexit⟩ :=
                        roundStep_good_forced execT cid round st resp c ctail am fresp
                          rest2 c2 c2tail fm hr hs2 hc hm htc hc2 hm2
                      simp only [agentLoop]
                      rw [hexit]
                      dsimp only
                      simp only [countToolCalls_append, countPlainCalls_append,
                        countToolCalls_nil, countPlainCalls_nil, ht, hp]
                      exact ⟨trivial, trivial, trivial⟩
            · have h5 : round + (n + 1) = 5 := hsum
              have h4 : ¬(round = 4) := hr
              have hn1 : 1 ≤ n := by omega
              obtain ⟨ht, hp, hscr, hexit⟩ :=
                roundStep_good_normal execT cid round st resp rest c ctail am hr hs hc hm htc
              have hgood2 : ∀ e2 ∈ (roundStep execT cid round st).2.1.script,
                  goodToolResp e2 = true := by
                rw [hscr]
                intro e2 he2
                exact hgood e2 (by rw [hs]; exact List.mem_cons_of_mem _ he2)
              have hlen2 : n + 1 ≤ (roundStep execT cid round st).2.1.script.length := by
                rw [hscr]
                rw [hs] at hlen
                simp only [List.length_cons] at hlen
                omega
              obtain ⟨ihT, ihP, ihE⟩ :=
                ih (round + 1) (roundStep execT cid round st).2.1 (by omega) hn1 hgood2 hlen2
              simp only [agentLoop]
              rw [hexit]
              dsimp only
              simp only [countToolCalls_append, countPlainCalls_append, ht, hp, ihT, ihP]
              exact ⟨by omega, trivial, ihE⟩

/-- C2: the orchestration loop is bounded by the fixed round limit
R=5: no trace ever contains more than 5 tools-enabled model calls; and
when the model requests tool calls on every round (structurally valid
tool-requesting responses scripted for all calls, with entries for
them), the loop terminates at round 5 having made exactly 5
tools-enabled calls plus exactly one forced tools-disabled call, and
the request completes without error. -/
theorem processMessage_round_bound :
    (∀ (execT : String → Args → ToolExecutionResult)
        (script : List (Except String InvokeResult)) (cid : String)
        (initMsgs : List ChatMsg) (userMsg : String),
      countToolCalls (processMessage execT script cid initMsgs userMsg).1 ≤ 5) ∧
    (∀ (execT : String → Args → ToolExecutionResult)
        (script : List (Except String InvokeResult)) (cid : String)
        (initMsgs : List ChatMsg) (userMsg : String),
      6 ≤ script.length →
      (∀ e ∈ script, goodToolResp e = true) →
      countToolCalls (processMessage execT script cid initMsgs userMsg).1 = 5 ∧
      countPlainCalls (processMessage execT script cid initMsgs userMsg).1 = 1 ∧
      ∃ r, (processMessage execT script cid initMsgs userMsg).2 = Except.ok r) := by
  constructor
  · intro execT script cid initMsgs userMsg
    simp only [processMessage]
    split
    · simp only [countToolCalls_cons_appendEv]
      exact agentLoop_toolCalls_le execT cid MAX_TOOL_ROUNDS 0 _
    · simp only [countToolCalls_cons_appendEv, countToolCalls_append, countToolCalls_nil]
      have h : countToolCalls (agentLoop execT cid MAX_TOOL_ROUNDS 0
          { script := script, messages := initMsgs, responseContent := "",
            totalTokens := 0, modelUsed := "", toolsUsed := [], toolCallResults := [] }).1 ≤ 5 :=
        agentLoop_toolCalls_le execT cid MAX_TOOL_ROUNDS 0 _
      omega
  · intro execT script cid initMsgs userMsg hlen hgood
    obtain ⟨hT, hP, hE⟩ := agentLoop_all_tools execT cid MAX_TOOL_ROUNDS 0
      { script := script, messages := initMsgs, responseContent := "",
        totalTokens := 0, modelUsed := "", toolsUsed := [], toolCallResults := [] }
      (by decide) (by decide) hgood hlen
    simp only [processMessage]
    split
    · next m heq =>
      rw [hE] at heq
      cases heq
    · next heq =>
      refine ⟨?_, ?_, ⟨_, rfl⟩⟩
      · simp only [countToolCalls_cons_appendEv, countToolCalls_append, countToolCalls_nil]
        have hT5 : countToolCalls (agentLoop execT cid MAX_TOOL_ROUNDS 0
            { script := script, messages := initMsgs, responseContent := "",
              totalTokens := 0, modelUsed := "", toolsUsed := [],
              toolCallResults := [] }).1 = 5 := hT
        omega
      · simp only [countPlainCalls_cons_appendEv, countPlainCalls_append, countPlainCalls_nil]
        have hP1 : countPlainCalls (agentLoop execT cid MAX_TOOL_ROUNDS 0
            { script := script, messages := initMsgs, responseContent := "",
              totalTokens := 0, modelUsed := "", toolsUsed := [],
              toolCallResults := [] }).1 = 1 := hP
        omega

/-- C2 witness: with six tool-requesting responses scripted, the run
makes exactly 5 tools-enabled calls, one tools-disabled call, and
completes. -/
theorem processMessage_round_bound_witness :
    countToolCalls (processMessage execTok scriptAllTools "conv" [] "hi").1 = 5 ∧
    countPlainCalls (processMessage execTok scriptAllTools "conv" [] "hi").1 = 1 ∧
    ∃ r, (processMessage execTok scriptAllTools "conv" [] "hi").2 = Except.ok r :=
  processMessage_round_bound.2 execTok scriptAllTools "conv" [] "hi" (by decide) (by decide)

/-- Helper: list membership gives a true `contains`. -/
theorem contains_of_mem {a : String} {l : List String} (h : a ∈ l) : l.contains a = true :=
  List.elem_eq_true_of_mem h

/-- Helper: a true `contains` gives list membership. -/
theorem mem_of_contains {a : String} {l : List String} (h : l.contains a = true) : a ∈ l :=
  List.mem_of_elem_eq_true h

/-- Helper: the anchored-scan splits over concatenation, threading the
ids collected from the first part into the second. -/
theorem anchored_append :
    ∀ (evs1 evs2 : List Event) (ds : List String),
      toolAppendsAnchored (evs1 ++ evs2) ds =
        (toolAppendsAnchored evs1 ds &&
          toolAppendsAnchored evs2 (collectDeclared evs1 ds)) := by
  intro evs1
  induction evs1 with
  | nil => intro evs2 ds; simp [toolAppendsAnchored, collectDeclared]
  | cons e rest ih =>
    intro evs2 ds
    cases e with
    | llmCall b =>
      simp only [List.cons_append, toolAppendsAnchored, collectDeclared]
      exact ih evs2 ds
    | execTool n a =>
      simp only [List.cons_append, toolAppendsAnchored, collectDeclared]
      exact ih evs2 ds
    | append p =>
      cases hrole : p.role with
      | tool =>
        cases hid : p.toolCallId with
        | none =>
          simp only [List.cons_append, toolAppendsAnchored, collectDeclared, hrole, hid]
          exact ih evs2 ds
        | some cid =>
          simp only [List.cons_append, toolAppendsAnchored, collectDeclared, hrole, hid,
            List.append_eq]
          rw [ih evs2 ds, Bool.and_assoc]
      | assistant =>
        simp only [List.cons_append, toolAppendsAnchored, collectDeclared, hrole]
        exact ih evs2 _
      | user =>
        simp only [List.cons_append, toolAppendsAnchored, collectDeclared, hrole]
        exact ih evs2 ds
      | system =>
        simp only [List.cons_append, toolAppendsAnchored, collectDeclared, hrole]
        exact ih evs2 ds

/-- Helper: the tool-execution loop only appends tool-role messages
carrying ids already declared; its events pass the anchored scan. -/
theorem anchored_execToolCalls (execT : String → Args → ToolExecutionResult) (cid : String) :
    ∀ (tcs : List LLMToolCall) (st : LoopState) (ds : List String),
      (∀ tc ∈ tcs, tc.id ∈ ds) →
      toolAppendsAnchored (execToolCalls execT cid tcs st).1 ds = true := by
  intro tcs
  induction tcs with
  | nil => intro st ds _; rfl
  | cons tc rest ih =>
    intro st ds hmem
    simp only [execToolCalls, toolAppendsAnchored]
    rw [contains_of_mem (hmem tc (List.mem_cons_self tc rest))]
    simp only [Bool.true_and]
    exact ih _ ds (fun q hq => hmem q (List.mem_cons_of_mem _ hq))

/-- Helper: the tool-execution loop declares no new ids. -/
theorem collectDeclared_execToolCalls (execT : String → Args → ToolExecutionResult)
    (cid : String) :
    ∀ (tcs : List LLMToolCall) (st : LoopState) (ds : List String),
      collectDeclared (execToolCalls execT cid tcs st).1 ds = ds := by
  intro tcs
  induction tcs with
  | nil => intro st ds; rfl
  | cons tc rest ih =>
    intro st ds
    simp only [execToolCalls, collectDeclared]
    exact ih _ ds

/-- Helper: the events of one round pass the anchored scan from any
initial id set: the assistant append declares exactly the ids
subsequently used by its tool-response appends. -/
theorem roundStep_anchored (execT : String → Args → ToolExecutionResult) (cid : String)
    (round : Nat) (st : LoopState) :
    ∀ ds, toolAppendsAnchored (roundStep execT cid round st).1 ds = true := by
  intro ds
  unfold roundStep
  repeat' split
  all_goals try rfl
  all_goals simp only [toolAppendsAnchored, List.append_eq]
  all_goals try rw [anchored_append]
  all_goals try rw [collectDeclared_execToolCalls]
  all_goals try (rw [Bool.and_eq_true]; refine ⟨?_, rfl⟩)
  all_goals
    refine anchored_execToolCalls execT cid _ _ _ ?_
  all_goals
    intro tc htc
    refine List.mem_append_right _ ?_
    simp only [asstDeclaredIds, Option.getD_some, List.map_map]
    exact List.mem_map.mpr ⟨tc, htc, rfl⟩

/-- Helper: every trace of the loop passes the anchored scan. -/
theorem agentLoop_anchored (execT : String → Args → ToolExecutionResult) (cid : String) :
    ∀ (fuel round : Nat) (st : LoopState) (ds : List String),
      toolAppendsAnchored (agentLoop execT cid fuel round st).1 ds = true := by
  intro fuel
  induction fuel with
  | zero => intro round st ds; rfl
  | succ fuel ih =>
    intro round st ds
    simp only [agentLoop]
    split
    · exact roundStep_anchored execT cid round st ds
    · exact roundStep_anchored execT cid round st ds
    · rw [anchored_append, roundStep_anchored execT cid round st ds, Bool.true_and]
      exact ih (round + 1) _ _

/-- Helper: every full `processMessage` trace passes the anchored scan. -/
theorem processMessage_anchored (execT : String → Args → ToolExecutionResult)
    (script : List (Except String InvokeResult)) (cid : String)
    (initMsgs : List ChatMsg) (userMsg : String) :
    toolAppendsAnchored (processMessage execT script cid initMsgs userMsg).1 [] = true := by
  simp only [processMessage]
  split
  · simp only [toolAppendsAnchored]
    exact agentLoop_anchored execT cid MAX_TOOL_ROUNDS 0 _ []
  · simp only [toolAppendsAnchored]
    rw [anchored_append, agentLoop_anchored execT cid MAX_TOOL_ROUNDS 0 _ [], Bool.true_and]
    rfl

/-- Helper: a passing anchored scan yields, for every tool-role append
carrying a call id, an earlier assistant append declaring that id. -/
theorem anchored_exists :
    ∀ (evs : List Event) (ds : List String) (acc : List Event),
      (∀ c ∈ ds, ∃ p, Event.append p ∈ acc ∧ p.role = Role.assistant ∧
        c ∈ asstDeclaredIds p) →
      toolAppendsAnchored evs ds = true →
      ∀ (l1 : List Event) (t : AddMessageParams) (l2 : List Event),
        evs = l1 ++ Event.append t :: l2 →
        t.role = Role.tool → ∀ cid, t.toolCallId = some cid →
        ∃ p, Event.append p ∈ acc ++ l1 ∧ p.role = Role.assistant ∧
          cid ∈ asstDeclaredIds p := by
  intro evs
  induction evs with
  | nil =>
    intro ds acc _ _ l1 t l2 heq
    cases l1 <;> simp at heq
  | cons e rest ih =>
    intro ds acc hds hanch l1 t l2 heq hrole cid hcid
    cases l1 with
    | nil =>
      simp only [List.nil_append, List.cons.injEq] at heq
      obtain ⟨he, hrest⟩ := heq
      subst he
      simp only [toolAppendsAnchored, hrole, hcid, Bool.and_eq_true] at hanch
      have hmem : cid ∈ ds := mem_of_contains hanch.1
      obtain ⟨p, hp1, hp2, hp3⟩ := hds cid hmem
      exact ⟨p, by simpa using hp1, hp2, hp3⟩
    | cons x l1tail =>
      simp only [List.cons_append, List.cons.injEq] at heq
      obtain ⟨hx, hrest⟩ := heq
      subst hx
      have hlift : ∀ (ds' : List String),
          (∀ c ∈ ds', ∃ p, Event.append p ∈ acc ++ [e] ∧ p.role = Role.assistant ∧
            c ∈ asstDeclaredIds p) →
          toolAppendsAnchored rest ds' = true →
          ∃ p, Event.append p ∈ acc ++ e :: l1tail ∧ p.role = Role.assistant ∧
            cid ∈ asstDeclaredIds p := by
        intro ds' hds' hanch'
        have := ih ds' (acc ++ [e]) hds' hanch' l1tail t l2 hrest hrole cid hcid
        obtain ⟨p, hp1, hp2, hp3⟩ := this
        refine ⟨p, ?_, hp2, hp3⟩
        rw [List.append_assoc] at hp1
        simpa using hp1
      have hkeep : ∀ c ∈ ds, ∃ p, Event.append p ∈ acc ++ [e] ∧ p.role = Role.assistant ∧
          c ∈ asstDeclaredIds p := by
        intro c hc
        obtain ⟨p, hp1, hp2, hp3⟩ := hds c hc
        exact ⟨p, List.mem_append_left _ hp1, hp2, hp3⟩
      cases e with
      | llmCall b =>
        simp only [toolAppendsAnchored] at hanch
        exact hlift ds hkeep hanch
      | execTool n a =>
        simp only [toolAppendsAnchored] at hanch
        exact hlift ds hkeep hanch
      | append p =>
        cases hrole2 : p.role with
        | tool =>
          cases hid2 : p.toolCallId with
          | none =>
            simp only [toolAppendsAnchored, hrole2, hid2] at hanch
            exact hlift ds hkeep hanch
          | some c2 =>
            simp only [toolAppendsAnchored, hrole2, hid2, Bool.and_eq_true] at hanch
            exact hlift ds hkeep hanch.2
        | assistant =>
          simp only [toolAppendsAnchored, hrole2] at hanch
          refine hlift (ds ++ asstDeclaredIds p) ?_ hanch
          intro c hc
          rcases List.mem_append.mp hc with h1 | h2
          · exact hkeep c h1
          · exact ⟨p, List.mem_append_right _ (List.mem_cons_self _ _), hrole2, h2⟩
        | user =>
          simp only [toolAppendsAnchored, hrole2] at hanch
          exact hlift ds hkeep hanch
        | system =>
          simp only [toolAppendsAnchored, hrole2] at hanch
          exact hlift ds hkeep hanch

/-- C5: in every execution trace of `processMessage`, a tool-role
append carrying a call id is preceded by the append of an assistant
message declaring that id: the assistant-with-tool-calls message is
persisted before any of its tool responses. -/
theorem tool_append_preceded_by_declaring_assistant :
    ∀ (execT : String → Args → ToolExecutionResult)
      (script : List (Except String InvokeResult)) (cid : String)
      (initMsgs : List ChatMsg) (userMsg : String)
      (l1 : List Event) (t : AddMessageParams) (l2 : List Event),
      (processMessage execT script cid initMsgs userMsg).1 = l1 ++ Event.append t :: l2 →
      t.role = Role.tool → ∀ callId, t.toolCallId = some callId →
      ∃ p, Event.append p ∈ l1 ∧ p.role = Role.assistant ∧ callId ∈ asstDeclaredIds p := by
  intro execT script cid initMsgs userMsg l1 t l2 heq hrole callId hcid
  have h := anchored_exists (processMessage execT script cid initMsgs userMsg).1 [] []
    (by intro c hc; cases hc)
    (processMessage_anchored execT script cid initMsgs userMsg)
    l1 t l2 heq hrole callId hcid
  simpa using h

/-- C5 witness: in the concrete one-round run, the tool-response
append for id `c1` is preceded by an assistant append declaring `c1`. -/
theorem tool_append_preceded_by_declaring_assistant_witness :
    ∃ p, Event.append p ∈ [Event.append wUserAppend, Event.llmCall true,
        Event.append wAsstAppend, Event.execTool "lookup" [("id", "1")]] ∧
      p.role = Role.assistant ∧ "c1" ∈ asstDeclaredIds p :=
  tool_append_preceded_by_declaring_assistant execTok scriptOneRound "conv" [] "hi"
    [Event.append wUserAppend, Event.llmCall true, Event.append wAsstAppend,
     Event.execTool "lookup" [("id", "1")]]
    wToolAppend
    [Event.llmCall true, Event.append wFinalAppend]
    (by decide) (by decide) "c1" (by decide)

/-! Lemmas for the transcript reconstruction (`buildLLMContext`). -/

theorem mem_insertIfAbsent {x y : String} {l : List String} :
    x ∈ insertIfAbsent l y ↔ x ∈ l ∨ x = y := by
  unfold insertIfAbsent
  split
  · constructor
    · exact fun h => Or.inl h
    · rintro (h | h)
      · exact h
      · subst h; assumption
  · simp [List.mem_append]

theorem mem_mkIdSet_aux {x : String} :
    ∀ (xs acc : List String), x ∈ xs.foldl insertIfAbsent acc ↔ x ∈ acc ∨ x ∈ xs := by
  intro xs
  induction xs with
  | nil => intro acc; simp
  | cons y ys ih =>
    intro acc
    simp only [List.foldl_cons]
    rw [ih]
    rw [mem_insertIfAbsent]
    constructor
    · rintro ((h | h) | h)
      · exact Or.inl h
      · exact Or.inr (by rw [h]; exact List.mem_cons_self y ys)
      · exact Or.inr (List.mem_cons_of_mem y h)
    · rintro (h | h)
      · exact Or.inl (Or.inl h)
      · rcases List.mem_cons.mp h with h1 | h2
        · exact Or.inl (Or.inr h1)
        · exact Or.inr h2

theorem mem_mkIdSet {x : String} {xs : List String} : x ∈ mkIdSet xs ↔ x ∈ xs := by
  unfold mkIdSet
  rw [mem_mkIdSet_aux]
  simp

theorem smapSet_same (m : SMap) (k : String) (v : List String) :
    smapSet m k v k = some v := by
  simp [smapSet]

theorem smapSet_other (m : SMap) (k : String) (v : List String) {q : String} (h : q ≠ k) :
    smapSet m k v q = m q := by
  simp [smapSet, h]

theorem smapAdd_other (m : SMap) (k c : String) {q : String} (h : q ≠ k) :
    smapAdd m k c q = m q := by
  simp [smapAdd, h]

theorem smapAdd_same_entry (m : SMap) (k c : String) {acc : List String}
    (h : m k = some acc) : smapAdd m k c k = some (insertIfAbsent acc c) := by
  simp [smapAdd, h]

theorem struthy_eq_some {o : Option String} {c : String} (h : struthy o = some c) :
    o = some c := by
  cases o with
  | none => simp [struthy] at h
  | some s =>
    simp only [struthy] at h
    by_cases hs : s = ""
    · rw [if_pos hs] at h; cases h
    · rw [if_neg hs] at h; exact h

theorem otruthy_some {aid : String} (h : aid ≠ "") : otruthy (some aid) = true := by
  simp [otruthy, bne_iff_ne, h]

/-! Reduction lemmas for `pass1Step`, one per shape of the scanned
message, mirroring the branch structure of the source loop. -/

theorem pass1Step_user (s : P1State) (m : InsertAgentMessage) (h : m.role = Role.user) :
    pass1Step s m = { s with cur := none } := by
  simp [pass1Step, isToolCallAssistant, roleIs, h]

theorem pass1Step_system (s : P1State) (m : InsertAgentMessage) (h : m.role = Role.system) :
    pass1Step s m = { s with cur := none } := by
  simp [pass1Step, isToolCallAssistant, roleIs, h]

theorem pass1Step_clean_assistant (s : P1State) (m : InsertAgentMessage)
    (h : m.role = Role.assistant) (h2 : ¬ 0 < (msgToolCalls m).length) :
    pass1Step s m = { s with cur := none } := by
  simp [pass1Step, isToolCallAssistant, roleIs, h, h2]

theorem pass1Step_anchor (s : P1State) (m : InsertAgentMessage)
    (h : m.role = Role.assistant) (h2 : 0 < (msgToolCalls m).length) :
    pass1Step s m =
      { amap := smapSet s.amap m.id (declaredIds m)
        rmap := smapSet s.rmap m.id []
        cur := some m.id } := by
  simp [pass1Step, isToolCallAssistant, roleIs, h, h2]

theorem pass1Step_tool_add (s : P1State) (m : InsertAgentMessage) (aid c : String)
    (h : m.role = Role.tool) (hcur : s.cur = some aid) (ha : aid ≠ "")
    (he : effToolCallId m = some c) :
    pass1Step s m = { s with rmap := smapAdd s.rmap aid c } := by
  simp [pass1Step, isToolCallAssistant, roleIs, h, hcur, otruthy_some ha, he]

theorem pass1Step_tool_none (s : P1State) (m : InsertAgentMessage) (aid : String)
    (h : m.role = Role.tool) (hcur : s.cur = some aid) (ha : aid ≠ "")
    (he : effToolCallId m = none) :
    pass1Step s m = s := by
  simp [pass1Step, isToolCallAssistant, roleIs, h, hcur, otruthy_some ha, he]

theorem pass1Step_tool_nocur (s : P1State) (m : InsertAgentMessage)
    (h : m.role = Role.tool) (hcur : s.cur = none) :
    pass1Step s m = s := by
  simp [pass1Step, isToolCallAssistant, roleIs, h, hcur, otruthy]

theorem pass1Step_tool_emptycur (s : P1State) (m : InsertAgentMessage)
    (h : m.role = Role.tool) (hcur : s.cur = some "") :
    pass1Step s m = s := by
  simp [pass1Step, isToolCallAssistant, roleIs, h, hcur, otruthy]

theorem pass1Aux_append (s : P1State) (l1 l2 : List InsertAgentMessage) :
    pass1Aux s (l1 ++ l2) = pass1Aux (pass1Aux s l1) l2 := by
  simp [pass1Aux, List.foldl_append]

theorem pass1Aux_cons (s : P1State) (m : InsertAgentMessage) (l : List InsertAgentMessage) :
    pass1Aux s (m :: l) = pass1Aux (pass1Step s m) l := rfl

/-- Helper: once the current-assistant pointer no longer references
`aid` and `aid` never reappears as a message id, the map entries of
`aid` are untouched by the rest of the first pass. -/
theorem pass1Aux_preserve (aid : String) :
    ∀ (l : List InsertAgentMessage) (s : P1State),
      (∀ m ∈ l, m.id ≠ aid) →
      (∀ b, s.cur = some b → b ≠ aid) →
      (pass1Aux s l).amap aid = s.amap aid ∧ (pass1Aux s l).rmap aid = s.rmap aid := by
  intro l
  induction l with
  | nil => intro s _ _; exact ⟨rfl, rfl⟩
  | cons m rest ih =>
    intro s hids hcur
    have hmid : m.id ≠ aid := hids m (List.mem_cons_self m rest)
    have hids' : ∀ q ∈ rest, q.id ≠ aid := fun q hq => hids q (List.mem_cons_of_mem m hq)
    rw [pass1Aux_cons]
    cases hrole : m.role with
    | user =>
      rw [pass1Step_user s m hrole]
      exact ih _ hids' (fun b hb => by cases hb)
    | system =>
      rw [pass1Step_system s m hrole]
      exact ih _ hids' (fun b hb => by cases hb)
    | assistant =>
      by_cases htc : 0 < (msgToolCalls m).length
      · rw [pass1Step_anchor s m hrole htc]
        obtain ⟨h1, h2⟩ := ih
          { amap := smapSet s.amap m.id (declaredIds m)
            rmap := smapSet s.rmap m.id []
            cur := some m.id } hids'
          (fun b hb => by
            have hb2 : m.id = b := Option.some.inj hb
            rw [← hb2]; exact hmid)
        refine ⟨h1.trans ?_, h2.trans ?_⟩
        · exact smapSet_other s.amap m.id (declaredIds m) (Ne.symm hmid)
        · exact smapSet_other s.rmap m.id [] (Ne.symm hmid)
      · rw [pass1Step_clean_assistant s m hrole htc]
        exact ih _ hids' (fun b hb => by cases hb)
    | tool =>
      cases hc : s.cur with
      | none =>
        rw [pass1Step_tool_nocur s m hrole hc]
        exact ih _ hids' hcur
      | some b0 =>
        by_cases hb0 : b0 = ""
        · subst hb0
          rw [pass1Step_tool_emptycur s m hrole hc]
          exact ih _ hids' hcur
        · cases he : effToolCallId m with
          | some c =>
            rw [pass1Step_tool_add s m b0 c hrole hc hb0 he]
            obtain ⟨h1, h2⟩ := ih { s with rmap := smapAdd s.rmap b0 c } hids' hcur
            refine ⟨h1, h2.trans ?_⟩
            exact smapAdd_other s.rmap b0 c (Ne.symm (hcur b0 hc))
          | none =>
            rw [pass1Step_tool_none s m b0 hrole hc hb0 he]
            exact ih _ hids' hcur

/-- Helper: while the pointer references `aid`, the first pass adds to
the response entry of `aid` exactly the effective ids of the leading
run of tool messages, and stops at the first non-tool message. -/
theorem pass1Aux_toolrun (aid : String) (dv : List String) :
    ∀ (l : List InsertAgentMessage) (s : P1State) (acc : List String),
      aid ≠ "" → s.cur = some aid → s.rmap aid = some acc → s.amap aid = some dv →
      (∀ m ∈ l, m.id ≠ aid) →
      (pass1Aux s l).rmap aid =
        some (respFold acc (l.takeWhile (fun q => roleIs q Role.tool))) ∧
      (pass1Aux s l).amap aid = some dv := by
  intro l
  induction l with
  | nil => intro s acc _ _ hr hA _; exact ⟨hr, hA⟩
  | cons m rest ih =>
    intro s acc ha hcur hr hA hids
    have hmid : m.id ≠ aid := hids m (List.mem_cons_self m rest)
    have hids' : ∀ q ∈ rest, q.id ≠ aid := fun q hq => hids q (List.mem_cons_of_mem m hq)
    rw [pass1Aux_cons]
    by_cases hrole : m.role = Role.tool
    · rw [List.takeWhile_cons_of_pos (by simp [roleIs, hrole])]
      cases he : effToolCallId m with
      | some c =>
        rw [pass1Step_tool_add s m aid c hrole hcur ha he]
        have hr2 : ({ s with rmap := smapAdd s.rmap aid c } : P1State).rmap aid =
            some (insertIfAbsent acc c) := smapAdd_same_entry s.rmap aid c hr
        obtain ⟨ih1, ih2⟩ := ih { s with rmap := smapAdd s.rmap aid c }
          (insertIfAbsent acc c) ha hcur hr2 hA hids'
        refine ⟨?_, ih2⟩
        rw [ih1]
        have : respFold acc (m :: rest.takeWhile (fun q => roleIs q Role.tool)) =
            respFold (insertIfAbsent acc c) (rest.takeWhile (fun q => roleIs q Role.tool)) := by
          simp [respFold, List.foldl_cons, respStep, he]
        rw [this]
      | none =>
        rw [pass1Step_tool_none s m aid hrole hcur ha he]
        obtain ⟨ih1, ih2⟩ := ih _ acc ha hcur hr hA hids'
        refine ⟨?_, ih2⟩
        rw [ih1]
        have : respFold acc (m :: rest.takeWhile (fun q => roleIs q Role.tool)) =
            respFold acc (rest.takeWhile (fun q => roleIs q Role.tool)) := by
          simp [respFold, List.foldl_cons, respStep, he]
        rw [this]
    · rw [List.takeWhile_cons_of_neg (by simp [roleIs, hrole])]
      cases hrole2 : m.role with
      | tool => exact absurd hrole2 hrole
      | user =>
        rw [pass1Step_user s m hrole2]
        obtain ⟨p1, p2⟩ := pass1Aux_preserve aid rest { s with cur := none } hids'
          (fun b hb => Option.noConfusion hb)
        exact ⟨p2.trans hr, p1.trans hA⟩
      | system =>
        rw [pass1Step_system s m hrole2]
        obtain ⟨p1, p2⟩ := pass1Aux_preserve aid rest { s with cur := none } hids'
          (fun b hb => Option.noConfusion hb)
        exact ⟨p2.trans hr, p1.trans hA⟩
      | assistant =>
        by_cases htc : 0 < (msgToolCalls m).length
        · rw [pass1Step_anchor s m hrole2 htc]
          obtain ⟨p1, p2⟩ := pass1Aux_preserve aid rest
            { amap := smapSet s.amap m.id (declaredIds m)
              rmap := smapSet s.rmap m.id []
              cur := some m.id } hids'
            (fun b hb => by
              have hb2 : m.id = b := Option.some.inj hb
              rw [← hb2]; exact hmid)
          refine ⟨p2.trans ?_, p1.trans ?_⟩
          · exact (smapSet_other s.rmap m.id [] (Ne.symm hmid)).trans hr
          · exact (smapSet_other s.amap m.id (declaredIds m) (Ne.symm hmid)).trans hA
        · rw [pass1Step_clean_assistant s m hrole2 htc]
          obtain ⟨p1, p2⟩ := pass1Aux_preserve aid rest { s with cur := none } hids'
            (fun b hb => Option.noConfusion hb)
          exact ⟨p2.trans hr, p1.trans hA⟩

theorem isToolCallAssistant_iff {m : InsertAgentMessage} :
    isToolCallAssistant m = true ↔ m.role = Role.assistant ∧ 0 < (msgToolCalls m).length := by
  simp [isToolCallAssistant, roleIs]

/-- Helper (first-pass accounting): for an anchor `a` of a window with
distinct nonempty ids, the final maps hold exactly the declared ids of
`a` and the response ids of the tool run following `a`. -/
theorem pass1_anchor_entries (pre : List InsertAgentMessage) (a : InsertAgentMessage)
    (rest : List InsertAgentMessage)
    (hnd : ((pre ++ a :: rest).map InsertAgentMessage.id).Nodup)
    (hne : ∀ m ∈ pre ++ a :: rest, m.id ≠ "")
    (hanchor : isToolCallAssistant a = true) :
    (pass1 (pre ++ a :: rest)).amap a.id = some (declaredIds a) ∧
    (pass1 (pre ++ a :: rest)).rmap a.id =
      some (respFold [] (rest.takeWhile (fun q => roleIs q Role.tool))) := by
  obtain ⟨hrole, htc⟩ := isToolCallAssistant_iff.mp hanchor
  have hamem : a ∈ pre ++ a :: rest := List.mem_append_right _ (List.mem_cons_self a rest)
  have haid : a.id ≠ "" := hne a hamem
  have hrestids : ∀ m ∈ rest, m.id ≠ a.id := by
    intro m hm heq
    have h1 : ((a :: rest).map InsertAgentMessage.id).Nodup := by
      rw [List.map_append] at hnd
      exact hnd.of_append_right
    rw [List.map_cons] at h1
    have h2 := (List.nodup_cons.mp h1).1
    exact h2 (heq ▸ List.mem_map_of_mem InsertAgentMessage.id hm)
  unfold pass1
  rw [pass1Aux_append, pass1Aux_cons, pass1Step_anchor _ a hrole htc]
  obtain ⟨h1, h2⟩ := pass1Aux_toolrun a.id (declaredIds a) rest
    { amap := smapSet (pass1Aux { amap := smapEmpty, rmap := smapEmpty, cur := none } pre).amap
        a.id (declaredIds a)
      rmap := smapSet (pass1Aux { amap := smapEmpty, rmap := smapEmpty, cur := none } pre).rmap
        a.id []
      cur := some a.id }
    [] haid rfl (smapSet_same _ _ _) (smapSet_same _ _ _) hrestids
  exact ⟨h2, h1⟩

/-- Helper: a collected response id comes from some tool message of
the run. -/
theorem mem_respFold {cid : String} :
    ∀ (run : List InsertAgentMessage) (acc : List String),
      cid ∈ respFold acc run → cid ∈ acc ∨ ∃ t ∈ run, effToolCallId t = some cid := by
  intro run
  induction run with
  | nil => intro acc h; exact Or.inl h
  | cons t ts ih =>
    intro acc h
    have h2 : cid ∈ respFold (respStep acc t) ts := h
    rcases ih (respStep acc t) h2 with h1 | h3
    · cases he : effToolCallId t with
      | some c =>
        unfold respStep at h1
        rw [he] at h1
        rcases mem_insertIfAbsent.mp h1 with ha | hb
        · exact Or.inl ha
        · exact Or.inr ⟨t, List.mem_cons_self t ts, by rw [he, hb]⟩
      | none =>
        unfold respStep at h1
        rw [he] at h1
        exact Or.inl h1
    · obtain ⟨q, hq1, hq2⟩ := h3
      exact Or.inr ⟨q, List.mem_cons_of_mem t hq1, hq2⟩

/-- Helper: the two-pass invariant holds for the maps computed by the
first pass of any window with distinct nonempty ids. -/
theorem toolGroupInv_of_nodup (msgs : List InsertAgentMessage)
    (hnd : (msgs.map InsertAgentMessage.id).Nodup)
    (hne : ∀ m ∈ msgs, m.id ≠ "") :
    ToolGroupInv (pass1 msgs).amap (pass1 msgs).rmap msgs := by
  intro pre a rest heq hanchor hall cid hcid
  subst heq
  obtain ⟨hA, hR⟩ := pass1_anchor_entries pre a rest hnd hne hanchor
  unfold hasAllResponses at hall
  rw [hA, hR] at hall
  simp only [Bool.and_eq_true, List.all_eq_true, decide_eq_true_eq] at hall
  have hc := hall.2 cid hcid
  have hmem : cid ∈ respFold [] (rest.takeWhile (fun q => roleIs q Role.tool)) :=
    mem_of_contains hc
  rcases mem_respFold _ _ hmem with h1 | h2
  · cases h1
  · exact h2

/-- Helper: the invariant restricts to the tail of the window. -/
theorem toolGroupInv_tail {amap rmap : SMap} {m : InsertAgentMessage}
    {rest : List InsertAgentMessage} (h : ToolGroupInv amap rmap (m :: rest)) :
    ToolGroupInv amap rmap rest := by
  intro pre a r2 heq ha hall cid hcid
  exact h (m :: pre) a r2 (by rw [List.cons_append, heq]) ha hall cid hcid

/-! Reduction lemmas for `pass2`, one per branch of the source loop. -/

theorem pass2_cons_user (amap rmap : SMap) (m : InsertAgentMessage)
    (rest : List InsertAgentMessage) (skip : Bool) (cur : Option String)
    (h : m.role = Role.user) :
    pass2 amap rmap (m :: rest) skip cur = m :: pass2 amap rmap rest false none := by
  simp [pass2, roleIs, h]

theorem pass2_cons_system (amap rmap : SMap) (m : InsertAgentMessage)
    (rest : List InsertAgentMessage) (skip : Bool) (cur : Option String)
    (h : m.role = Role.system) :
    pass2 amap rmap (m :: rest) skip cur = m :: pass2 amap rmap rest false none := by
  simp [pass2, roleIs, h]

theorem pass2_cons_anchor_complete (amap rmap : SMap) (m : InsertAgentMessage)
    (rest : List InsertAgentMessage) (skip : Bool) (cur : Option String)
    (h : m.role = Role.assistant) (h2 : 0 < (msgToolCalls m).length)
    (h3 : hasAllResponses amap rmap m.id = true) :
    pass2 amap rmap (m :: rest) skip cur =
      m :: pass2 amap rmap rest false (some m.id) := by
  simp [pass2, roleIs, isToolCallAssistant, h, h2, h3]

theorem pass2_cons_anchor_incomplete (amap rmap : SMap) (m : InsertAgentMessage)
    (rest : List InsertAgentMessage) (skip : Bool) (cur : Option String)
    (h : m.role = Role.assistant) (h2 : 0 < (msgToolCalls m).length)
    (h3 : ¬ hasAllResponses amap rmap m.id = true) :
    pass2 amap rmap (m :: rest) skip cur = pass2 amap rmap rest true none := by
  simp [pass2, roleIs, isToolCallAssistant, h, h2, h3]

theorem pass2_cons_tool_emit (amap rmap : SMap) (m : InsertAgentMessage)
    (rest : List InsertAgentMessage) (skip : Bool) (cur : Option String)
    (h : m.role = Role.tool) (h2 : (!skip && otruthy cur) = true) :
    pass2 amap rmap (m :: rest) skip cur = m :: pass2 amap rmap rest skip cur := by
  simp [pass2, roleIs, isToolCallAssistant, h, h2]

theorem pass2_cons_tool_skip (amap rmap : SMap) (m : InsertAgentMessage)
    (rest : List InsertAgentMessage) (skip : Bool) (cur : Option String)
    (h : m.role = Role.tool) (h2 : ¬ (!skip && otruthy cur) = true) :
    pass2 amap rmap (m :: rest) skip cur = pass2 amap rmap rest skip cur := by
  simp [pass2, roleIs, isToolCallAssistant, h, h2]

theorem pass2_cons_clean_keep (amap rmap : SMap) (m : InsertAgentMessage)
    (rest : List InsertAgentMessage) (cur : Option String)
    (h : m.role = Role.assistant) (h2 : ¬ 0 < (msgToolCalls m).length) :
    pass2 amap rmap (m :: rest) false cur = m :: pass2 amap rmap rest false none := by
  simp [pass2, roleIs, isToolCallAssistant, h, h2]

theorem pass2_cons_clean_skip (amap rmap : SMap) (m : InsertAgentMessage)
    (rest : List InsertAgentMessage) (cur : Option String)
    (h : m.role = Role.assistant) (h2 : ¬ 0 < (msgToolCalls m).length) :
    pass2 amap rmap (m :: rest) true cur = pass2 amap rmap rest true none := by
  simp [pass2, roleIs, isToolCallAssistant, h, h2]

/-- Helper: with the skip flag clear and a truthy current assistant,
the second pass emits a whole run of tool messages unchanged. -/
theorem pass2_toolrun (amap rmap : SMap) (aid : String) (ha : aid ≠ "") :
    ∀ (run rest2 : List InsertAgentMessage),
      (∀ t ∈ run, roleIs t Role.tool = true) →
      pass2 amap rmap (run ++ rest2) false (some aid) =
        run ++ pass2 amap rmap rest2 false (some aid) := by
  intro run
  induction run with
  | nil => intro rest2 _; simp
  | cons t ts ih =>
    intro rest2 hrun
    have hrole : t.role = Role.tool := by
      have h := hrun t (List.mem_cons_self t ts)
      simpa [roleIs] using h
    rw [List.cons_append,
      pass2_cons_tool_emit amap rmap t (ts ++ rest2) false (some aid) hrole
        (by simp [otruthy_some ha]),
      ih rest2 (fun q hq => hrun q (List.mem_cons_of_mem t hq))]
    rfl

/-- Helper (second pass): every assistant-with-tool-calls message kept
in the validated window is followed, inside the validated window, by a
tool message answering each of its declared ids. -/
theorem pass2_complete_groups (amap rmap : SMap) :
    ∀ (msgs : List InsertAgentMessage) (skip : Bool) (cur : Option String),
      ToolGroupInv amap rmap msgs →
      (∀ m ∈ msgs, m.id ≠ "") →
      ∀ (l1 : List InsertAgentMessage) (a : InsertAgentMessage)
        (l2 : List InsertAgentMessage),
        pass2 amap rmap msgs skip cur = l1 ++ a :: l2 →
        isToolCallAssistant a = true →
        ∀ cid ∈ declaredIds a,
          ∃ t ∈ l2, roleIs t Role.tool = true ∧ effToolCallId t = some cid := by
  intro msgs
  induction msgs with
  | nil =>
    intro skip cur _ _ l1 a l2 heq hanchor cid hcid
    exfalso
    cases l1 <;> simp [pass2] at heq
  | cons m rest ih =>
    intro skip cur hinv hne l1 a l2 heq hanchor cid hcid
    have hinv' := toolGroupInv_tail hinv
    have hne' : ∀ q ∈ rest, q.id ≠ "" := fun q hq => hne q (List.mem_cons_of_mem m hq)
    cases hrole : m.role with
    | user =>
      rw [pass2_cons_user amap rmap m rest skip cur hrole] at heq
      cases l1 with
      | nil =>
        simp only [List.nil_append, List.cons.injEq] at heq
        rw [← heq.1] at hanchor
        have h := (isToolCallAssistant_iff.mp hanchor).1
        rw [hrole] at h
        exact absurd h (by decide)
      | cons x l1t =>
        simp only [List.cons_append, List.cons.injEq] at heq
        exact ih false none hinv' hne' l1t a l2 heq.2 hanchor cid hcid
    | system =>
      rw [pass2_cons_system amap rmap m rest skip cur hrole] at heq
      cases l1 with
      | nil =>
        simp only [List.nil_append, List.cons.injEq] at heq
        rw [← heq.1] at hanchor
        have h := (isToolCallAssistant_iff.mp hanchor).1
        rw [hrole] at h
        exact absurd h (by decide)
      | cons x l1t =>
        simp only [List.cons_append, List.cons.injEq] at heq
        exact ih false none hinv' hne' l1t a l2 heq.2 hanchor cid hcid
    | tool =>
      by_cases hcond : (!skip && otruthy cur) = true
      · rw [pass2_cons_tool_emit amap rmap m rest skip cur hrole hcond] at heq
        cases l1 with
        | nil =>
          simp only [List.nil_append, List.cons.injEq] at heq
          rw [← heq.1] at hanchor
          have h := (isToolCallAssistant_iff.mp hanchor).1
          rw [hrole] at h
          exact absurd h (by decide)
        | cons x l1t =>
          simp only [List.cons_append, List.cons.injEq] at heq
          exact ih skip cur hinv' hne' l1t a l2 heq.2 hanchor cid hcid
      · rw [pass2_cons_tool_skip amap rmap m rest skip cur hrole hcond] at heq
        exact ih skip cur hinv' hne' l1 a l2 heq hanchor cid hcid
    | assistant =>
      by_cases htc : 0 < (msgToolCalls m).length
      · by_cases hall : hasAllResponses amap rmap m.id = true
        · rw [pass2_cons_anchor_complete amap rmap m rest skip cur hrole htc hall] at heq
          cases l1 with
          | nil =>
            simp only [List.nil_append, List.cons.injEq] at heq
            obtain ⟨ham, hl2⟩ := heq
            subst ham
            obtain ⟨t, htmem, hteff⟩ :=
              hinv [] m rest rfl (isToolCallAssistant_iff.mpr ⟨hrole, htc⟩) hall cid hcid
            have htrole : roleIs t Role.tool = true := by
              have h := List.mem_takeWhile_imp htmem
              simpa using h
            have hmid : m.id ≠ "" := hne m (List.mem_cons_self m rest)
            rw [← hl2]
            have hsplit : rest.takeWhile (fun q => roleIs q Role.tool) ++
                rest.dropWhile (fun q => roleIs q Role.tool) = rest :=
              List.takeWhile_append_dropWhile _ _
            rw [← hsplit,
              pass2_toolrun amap rmap m.id hmid _ _
                (fun q hq => by
                  have h := List.mem_takeWhile_imp hq
                  simpa using h)]
            exact ⟨t, List.mem_append_left _ htmem, htrole, hteff⟩
          | cons x l1t =>
            simp only [List.cons_append, List.cons.injEq] at heq
            exact ih false (some m.id) hinv' hne' l1t a l2 heq.2 hanchor cid hcid
        · rw [pass2_cons_anchor_incomplete amap rmap m rest skip cur hrole htc hall] at heq
          exact ih true none hinv' hne' l1 a l2 heq hanchor cid hcid
      · cases skip with
        | false =>
          rw [pass2_cons_clean_keep amap rmap m rest cur hrole htc] at heq
          cases l1 with
          | nil =>
            simp only [List.nil_append, List.cons.injEq] at heq
            rw [← heq.1] at hanchor
            exact absurd (isToolCallAssistant_iff.mp hanchor).2 htc
          | cons x l1t =>
            simp only [List.cons_append, List.cons.injEq] at heq
            exact ih false none hinv' hne' l1t a l2 heq.2 hanchor cid hcid
        | true =>
          rw [pass2_cons_clean_skip amap rmap m rest cur hrole htc] at heq
          exact ih true none hinv' hne' l1 a l2 heq hanchor cid hcid

/-- Helper: a decomposition of a mapped list lifts to the original. -/
theorem map_eq_append_cons {α β : Type} (f : α → β) :
    ∀ (l : List α) (l1 : List β) (b : β) (l2 : List β),
      l.map f = l1 ++ b :: l2 →
      ∃ p x q, l = p ++ x :: q ∧ l1 = p.map f ∧ b = f x ∧ l2 = q.map f := by
  intro l
  induction l with
  | nil => intro l1 b l2 h; exfalso; cases l1 <;> simp at h
  | cons y ys ih =>
    intro l1 b l2 h
    cases l1 with
    | nil =>
      simp only [List.map_cons, List.nil_append, List.cons.injEq] at h
      exact ⟨[], y, ys, rfl, rfl, h.1.symm, h.2.symm⟩
    | cons z l1t =>
      simp only [List.map_cons, List.cons_append, List.cons.injEq] at h
      obtain ⟨p, x, q, h1, h2, h3, h4⟩ := ih l1t b l2 h.2
      refine ⟨y :: p, x, q, by rw [List.cons_append, h1], ?_, h3, h4⟩
      rw [List.map_cons, ← h.1, h2]

theorem toLLMMessage_role (m : InsertAgentMessage) : (toLLMMessage m).role = m.role := by
  unfold toLLMMessage
  by_cases h1 : isToolCallAssistant m = true <;> by_cases h2 : roleIs m Role.tool = true <;>
    simp [h1, h2]

/-- Helper: a protocol entry with tool calls comes from an
assistant-with-tool-calls row, with the same tool-call list. -/
theorem toLLMMessage_tool_calls (m : InsertAgentMessage)
    (h : (toLLMMessage m).tool_calls ≠ []) :
    isToolCallAssistant m = true ∧ (toLLMMessage m).tool_calls = msgToolCalls m := by
  by_cases h1 : isToolCallAssistant m = true <;> by_cases h2 : roleIs m Role.tool = true
  · exact ⟨h1, by unfold toLLMMessage; simp [h1, h2]⟩
  · exact ⟨h1, by unfold toLLMMessage; simp [h1, h2]⟩
  · exfalso; apply h; unfold toLLMMessage; simp [h1, h2]
  · exfalso; apply h; unfold toLLMMessage; simp [h1, h2]

/-- Helper: on a tool-role row the protocol mapping reproduces the
effective tool-call id whenever there is one. -/
theorem toLLMMessage_tool_call_id (m : InsertAgentMessage) (c : String)
    (h : m.role = Role.tool) (he : effToolCallId m = some c) :
    (toLLMMessage m).tool_call_id = some c := by
  have h1 : isToolCallAssistant m = false := by simp [isToolCallAssistant, roleIs, h]
  have h2 : roleIs m Role.tool = true := by simp [roleIs, h]
  unfold toLLMMessage
  simp only [h1, h2, Bool.false_eq_true, if_false, if_true]
  unfold effToolCallId at he
  cases hst : struthy m.toolCallId with
  | some s =>
    rw [hst] at he
    simp only [hst]
    exact he
  | none =>
    rw [hst] at he
    have h3 := struthy_eq_some he
    simp only [hst]
    exact h3

/-- C1: the history built for the model contains complete tool-call
groups only.  Concretely (scenario C), an assistant message declaring
ids `a` and `b` with only a stored response for `a` is omitted
together with that response; and universally, over any stored window
with distinct nonempty message ids, every assistant-with-tool-calls
entry of the output has each declared tool-call id matched by a
following tool entry of the output carrying that id. -/
theorem buildLLMContext_complete_tool_groups :
    (buildLLMContext scenarioMsgs = [outUser]) ∧
    (∀ (msgs : List InsertAgentMessage),
      (msgs.map InsertAgentMessage.id).Nodup →
      (∀ m ∈ msgs, m.id ≠ "") →
      ∀ (l1 : List LLMHistoryMsg) (a : LLMHistoryMsg) (l2 : List LLMHistoryMsg),
        buildLLMContext msgs = l1 ++ a :: l2 →
        a.role = Role.assistant → a.tool_calls ≠ [] →
        ∀ tc ∈ a.tool_calls,
          ∃ t ∈ l2, t.role = Role.tool ∧ t.tool_call_id = some tc.id) := by
  constructor
  · decide
  · intro msgs hnd hne l1 a l2 heq hrole htc tc htcmem
    have heq2 : (validatedMessages msgs).map toLLMMessage = l1 ++ a :: l2 := heq
    obtain ⟨p, x, q, hval, hl1, hax, hl2⟩ :=
      map_eq_append_cons toLLMMessage (validatedMessages msgs) l1 a l2 heq2
    have hx : isToolCallAssistant x = true ∧ (toLLMMessage x).tool_calls = msgToolCalls x := by
      apply toLLMMessage_tool_calls
      rw [← hax]
      exact htc
    rw [hax] at htcmem
    rw [hx.2] at htcmem
    have hcid : tc.id ∈ declaredIds x := by
      unfold declaredIds
      rw [mem_mkIdSet]
      exact List.mem_map_of_mem DbToolCall.id htcmem
    have hinv := toolGroupInv_of_nodup msgs hnd hne
    unfold validatedMessages at hval
    obtain ⟨t, htmem, htrole, hteff⟩ :=
      pass2_complete_groups (pass1 msgs).amap (pass1 msgs).rmap msgs false none hinv hne
        p x q hval hx.1 tc.id hcid
    have htr : t.role = Role.tool := by simpa [roleIs] using htrole
    refine ⟨toLLMMessage t, ?_, ?_, ?_⟩
    · rw [hl2]
      exact List.mem_map_of_mem toLLMMessage htmem
    · rw [toLLMMessage_role]
      exact htr
    · exact toLLMMessage_tool_call_id t tc.id htr hteff

/-- C1 witness: in the window with a complete group, the kept
assistant entry declaring id "a" is followed in the output by a tool
entry answering "a". -/
theorem buildLLMContext_complete_tool_groups_witness :
    ∃ t ∈ [outTool1, outTool2], t.role = Role.tool ∧ t.tool_call_id = some "a" :=
  buildLLMContext_complete_tool_groups.2 completeGroupMsgs (by decide) (by decide)
    [outUser] outAsst [outTool1, outTool2] (by decide) (by decide) (by decide)
    ⟨"a", "lookup", [("id", "1")]⟩ (by decide)

end Spec2Proof
